import Mathlib

/-!
Verification of the gap-buffer data structures of the `editor` repository.

We shallowly embed three components:
* `RawBuf`-backed `GapBuffer` (from `crates/ash_gap_buffer2/src/buffer.rs`
  together with `src/raw.rs`): a byte gap buffer over one allocation.
* `GapString` (from `src/str.rs`): the UTF-8 validated wrapper.
* `GapVec` (from `crates/ash_gap_buffer/src/lib.rs`): the earlier generic
  rewrite, instantiated at bytes, kept because its `index_to_ptr` differs.

Heap memory is modelled as a total function `Nat → Nat` from offsets to byte
values; `ptr::copy` (memmove) reads all of its source bytes from the
pre-state, `ptr::copy_nonoverlapping` from an external slice is a range
write.  A Rust panic is modelled as `Option.none` (or an `Except` error):
every panicking operation of the source checks its assertion before any
mutation, so no mutated state escapes a panic.  `usize` values are `Nat`;
the `capacity <= isize::MAX` assertion of `RawBuf::set_capacity` is kept
explicit with `ISIZE_MAX = 2^63 - 1`.
-/

/-- Byte memory: value stored at each offset of the allocation. -/
def Mem : Type := Nat → Nat

/-- Write a single byte at offset `i` (models `ptr::write`). -/
def memWrite (m : Mem) (i b : Nat) : Mem :=
  fun j => if j = i then b else m j

/-- Write the bytes of an external slice starting at `start`
(models `ptr::copy_nonoverlapping` from a caller slice into the buffer). -/
def memWriteList (m : Mem) (start : Nat) (bs : List Nat) : Mem :=
  fun j => if start ≤ j ∧ j < start + bs.length then bs.getD (j - start) 0 else m j

/-- Overlapping-safe copy of `len` bytes from offset `src` to offset `dest`
(models `ptr::copy`, i.e. memmove: all reads see the pre-copy memory). -/
def memCopy (m : Mem) (src dest len : Nat) : Mem :=
  fun j => if dest ≤ j ∧ j < dest + len then m (src + (j - dest)) else m j

/-- The list of `len` bytes stored at offsets `[start, start+len)`
(models reading a slice out of the allocation). -/
def readRange (m : Mem) (start len : Nat) : List Nat :=
  (List.range len).map fun j => m (start + j)

/-- `isize::MAX` on the 64-bit targets the editor runs on. -/
def ISIZE_MAX : Nat := 2 ^ 63 - 1

/-- `calc_new_capacity` from `crates/ash_gap_buffer2/src/buffer.rs`:
`None` when the current capacity already fits `required`, otherwise
`max required (cap + max (cap / 16) 64)`. -/
def calc_new_capacity (cap required : Nat) : Option Nat :=
  if required ≤ cap then none
  else some (max required (cap + max (cap / 16) 64))

/-- State of `GapBuffer` (`crates/ash_gap_buffer2/src/buffer.rs`):
the `RawBuf` allocation is its capacity plus the byte memory, and the two
live regions are delimited by `front_len` and `back_len`. -/
structure GapBuffer where
  cap : Nat
  mem : Mem
  front_len : Nat
  back_len : Nat

/-- `GapBuffer::new`. -/
def GapBuffer.new : GapBuffer :=
  { cap := 0, mem := fun _ => 0, front_len := 0, back_len := 0 }

/-- `GapBuffer::len`. -/
def GapBuffer.len (s : GapBuffer) : Nat := s.front_len + s.back_len

/-- `GapBuffer::is_empty`. -/
def GapBuffer.is_empty (s : GapBuffer) : Bool := s.len = 0

/-- Offset of the first gap slot (`GapBuffer::gap_ptr`). -/
def GapBuffer.gap_ptr (s : GapBuffer) : Nat := s.front_len

/-- Offset of the first back-region slot (`GapBuffer::back_ptr`). -/
def GapBuffer.back_ptr (s : GapBuffer) : Nat := s.cap - s.back_len

/-- `GapBuffer::front`: the front region as a slice. -/
def GapBuffer.front (s : GapBuffer) : List Nat := readRange s.mem 0 s.front_len

/-- `GapBuffer::back`: the back region as a slice. -/
def GapBuffer.back (s : GapBuffer) : List Nat :=
  readRange s.mem (s.cap - s.back_len) s.back_len

/-- `RawBuf::set_capacity` (`src/raw.rs`) as seen through `GapBuffer`:
asserts `new_cap <= isize::MAX` (panic modelled as `none`), reallocates to
exactly `new_cap`; `realloc` preserves the stored bytes (up to the smaller
capacity; offsets past it are never read by a well-formed buffer). -/
def GapBuffer.set_capacity (s : GapBuffer) (new_cap : Nat) : Option GapBuffer :=
  if new_cap ≤ ISIZE_MAX then some { s with cap := new_cap } else none

/-- `GapBuffer::reserve`: grow via `calc_new_capacity`, then move the back
region to the end of the new allocation (`ptr::copy` from the old back
offset to the new one). -/
def GapBuffer.reserve (s : GapBuffer) (additional : Nat) : Option GapBuffer :=
  match calc_new_capacity s.cap (s.len + additional) with
  | none => some s
  | some new_cap =>
    match s.set_capacity new_cap with
    | none => none
    | some s1 =>
      some { s1 with
              mem := memCopy s1.mem (s.cap - s.back_len) (s1.cap - s.back_len) s.back_len }

/-- `GapBuffer::push`: reserve one slot, write at the gap pointer, bump
`front_len`. -/
def GapBuffer.push (s : GapBuffer) (byte : Nat) : Option GapBuffer :=
  (s.reserve 1).map fun s1 =>
    { s1 with mem := memWrite s1.mem s1.gap_ptr byte, front_len := s1.front_len + 1 }

/-- `GapBuffer::push_back`: reserve one slot, bump `back_len`, write at the
new back pointer. -/
def GapBuffer.push_back (s : GapBuffer) (byte : Nat) : Option GapBuffer :=
  (s.reserve 1).map fun s1 =>
    { s1 with back_len := s1.back_len + 1,
              mem := memWrite s1.mem (s1.cap - (s1.back_len + 1)) byte }

/-- `GapBuffer::push_slice`: bulk append to the front region. -/
def GapBuffer.push_slice (s : GapBuffer) (slice : List Nat) : Option GapBuffer :=
  (s.reserve slice.length).map fun s1 =>
    { s1 with mem := memWriteList s1.mem s1.gap_ptr slice,
              front_len := s1.front_len + slice.length }

/-- `GapBuffer::push_slice_back`: bulk append to the back region. -/
def GapBuffer.push_slice_back (s : GapBuffer) (slice : List Nat) : Option GapBuffer :=
  (s.reserve slice.length).map fun s1 =>
    { s1 with back_len := s1.back_len + slice.length,
              mem := memWriteList s1.mem (s1.cap - (s1.back_len + slice.length)) slice }

/-- `GapBuffer::pop`: remove and return the last front element. -/
def GapBuffer.pop (s : GapBuffer) : Option Nat × GapBuffer :=
  if s.front_len > 0 then
    (some (s.mem (s.front_len - 1)), { s with front_len := s.front_len - 1 })
  else
    (none, s)

/-- `GapBuffer::pop_back`: remove and return the first back element. -/
def GapBuffer.pop_back (s : GapBuffer) : Option Nat × GapBuffer :=
  if s.back_len > 0 then
    (some (s.mem (s.cap - s.back_len)), { s with back_len := s.back_len - 1 })
  else
    (none, s)

/-- `GapBuffer::pop_slice`: drain up to `slice.length` elements from the tail
of the front region into the caller slice; returns the count transferred,
the caller slice after the copy, and the new buffer state. -/
def GapBuffer.pop_slice (s : GapBuffer) (slice : List Nat) :
    Nat × List Nat × GapBuffer :=
  let len := min slice.length s.front_len
  (len,
   readRange s.mem (s.front_len - len) len ++ slice.drop len,
   { s with front_len := s.front_len - len })

/-- `GapBuffer::pop_slice_back`: drain up to `slice.length` elements from the
head of the back region into the caller slice. -/
def GapBuffer.pop_slice_back (s : GapBuffer) (slice : List Nat) :
    Nat × List Nat × GapBuffer :=
  let len := min slice.length s.back_len
  (len,
   readRange s.mem (s.cap - s.back_len) len ++ slice.drop len,
   { s with back_len := s.back_len - len })

/-- `GapBuffer::set_gap`: asserts `index <= len` (panic as `none`), then
moves `|index - front_len|` elements across the gap with `ptr::copy`.
Pointers are computed exactly as in the source: in the `Less` branch the
destination back pointer uses the already-increased `back_len`, in the
`Greater` branch source and destination use the old lengths. -/
def GapBuffer.set_gap (s : GapBuffer) (index : Nat) : Option GapBuffer :=
  if index ≤ s.len then
    some
      (if index < s.front_len then
        let len := s.front_len - index
        { s with front_len := index,
                 back_len := s.back_len + len,
                 mem := memCopy s.mem index (s.cap - (s.back_len + len)) len }
      else if s.front_len < index then
        let len := index - s.front_len
        { s with front_len := index,
                 back_len := s.back_len - len,
                 mem := memCopy s.mem (s.cap - s.back_len) s.front_len len }
      else s)
  else none

/-- `GapBuffer::get` composed with the dereference: `index_to_ptr` picks the
front offset for `index < front_len`, otherwise the back offset
`back_ptr + (index - front_len)` while it is in bounds. -/
def GapBuffer.get (s : GapBuffer) (index : Nat) : Option Nat :=
  if index < s.front_len then
    some (s.mem index)
  else if index - s.front_len < s.back_len then
    some (s.mem (s.cap - s.back_len + (index - s.front_len)))
  else none

/-- `GapBuffer::clear`. -/
def GapBuffer.clear (s : GapBuffer) : GapBuffer :=
  { s with front_len := 0, back_len := 0 }

/-- `GapBuffer::truncate_front`. -/
def GapBuffer.truncate_front (s : GapBuffer) (len : Nat) : GapBuffer :=
  { s with front_len := min s.front_len len }

/-- `GapBuffer::truncate_back`. -/
def GapBuffer.truncate_back (s : GapBuffer) (len : Nat) : GapBuffer :=
  { s with back_len := min s.back_len len }

/-- `GapBuffer::shrink_to`: asserts `capacity >= len` (panic as `none`),
moves the back region to the end of the shrunk allocation, then reallocates. -/
def GapBuffer.shrink_to (s : GapBuffer) (capacity : Nat) : Option GapBuffer :=
  if s.len ≤ capacity then
    let m1 := memCopy s.mem (s.cap - s.back_len) (capacity - s.back_len) s.back_len
    ({ s with mem := m1 } : GapBuffer).set_capacity capacity
  else none

/-- `GapBuffer::shrink_to_fit`. -/
def GapBuffer.shrink_to_fit (s : GapBuffer) : Option GapBuffer :=
  s.shrink_to s.len

/-- `GapBuffer::into_vec`: empty-capacity short-circuit, otherwise shrink to
fit and hand the allocation over as one flat vector. -/
def GapBuffer.into_vec (s : GapBuffer) : Option (List Nat) :=
  if s.cap = 0 then some []
  else (s.shrink_to_fit).map fun s1 => readRange s1.mem 0 s1.len

/-- `impl From<Vec<u8>> for GapBuffer`: adopt the vector's allocation (its
capacity `vcap`, its `v.length` initialized bytes) as the entire front
region.  Bytes past `v.length` are uninitialized; the model stores `0`. -/
def GapBuffer.from_vec (v : List Nat) (vcap : Nat) : GapBuffer :=
  { cap := vcap, mem := fun i => v.getD i 0, front_len := v.length, back_len := 0 }

/-- The structural invariant of `GapBuffer` (spec §3/§8): the two regions fit
in the allocation, and the capacity respects the offset-safety bound. -/
def GapBuffer.wf (s : GapBuffer) : Prop :=
  s.front_len + s.back_len ≤ s.cap ∧ s.cap ≤ ISIZE_MAX

instance (s : GapBuffer) : Decidable s.wf := by
  unfold GapBuffer.wf; infer_instance

/-! ### Memory-model lemmas -/

theorem readRange_length (m : Mem) (start len : Nat) :
    (readRange m start len).length = len := by
  simp [readRange]

theorem readRange_getElem (m : Mem) (start len : Nat) (i : Nat)
    (h : i < (readRange m start len).length) :
    (readRange m start len)[i] = m (start + i) := by
  simp [readRange]

theorem readRange_zero (m : Mem) (start : Nat) : readRange m start 0 = [] := by
  simp [readRange]

theorem readRange_eq_nil_iff (m : Mem) (start len : Nat) :
    readRange m start len = [] ↔ len = 0 := by
  constructor
  · intro h
    have := congrArg List.length h
    simpa [readRange_length] using this
  · intro h; subst h; exact readRange_zero m start

theorem readRange_congr {m1 m2 : Mem} (start len : Nat)
    (h : ∀ j, j < len → m1 (start + j) = m2 (start + j)) :
    readRange m1 start len = readRange m2 start len := by
  apply List.ext_getElem
  · simp [readRange_length]
  · intro i h1 h2
    rw [readRange_getElem, readRange_getElem]
    exact h i (by simpa [readRange_length] using h1)

theorem readRange_add (m : Mem) (start a b : Nat) :
    readRange m start (a + b) = readRange m start a ++ readRange m (start + a) b := by
  apply List.ext_getElem
  · simp [readRange_length]
  · intro i h1 h2
    rw [readRange_getElem]
    rcases Nat.lt_or_ge i a with hi | hi
    · rw [List.getElem_append_left (by simpa [readRange_length] using hi)]
      rw [readRange_getElem]
    · rw [List.getElem_append_right (by simpa [readRange_length] using hi)]
      rw [readRange_getElem]
      simp only [readRange_length]
      congr 1
      omega

theorem readRange_take (m : Mem) (start len k : Nat) :
    (readRange m start len).take k = readRange m start (min k len) := by
  apply List.ext_getElem
  · simp [readRange_length]
  · intro i h1 h2
    rw [List.getElem_take, readRange_getElem, readRange_getElem]

theorem readRange_drop (m : Mem) (start len k : Nat) :
    (readRange m start len).drop k = readRange m (start + k) (len - k) := by
  apply List.ext_getElem
  · simp [readRange_length]
  · intro i h1 h2
    rw [List.getElem_drop, readRange_getElem, readRange_getElem]
    ring_nf

theorem readRange_memCopy_of_disjoint (m : Mem) (src dest len start n : Nat)
    (h : dest + len ≤ start ∨ start + n ≤ dest) :
    readRange (memCopy m src dest len) start n = readRange m start n := by
  apply readRange_congr
  intro j hj
  unfold memCopy
  rcases h with h | h
  · rw [if_neg]; omega
  · rw [if_neg]; omega

theorem readRange_memCopy_inside (m : Mem) (src dest len : Nat) :
    readRange (memCopy m src dest len) dest len = readRange m src len := by
  apply List.ext_getElem
  · simp [readRange_length]
  · intro i h1 h2
    have hi : i < len := by simpa [readRange_length] using h2
    rw [readRange_getElem, readRange_getElem]
    unfold memCopy
    rw [if_pos (by omega)]
    congr 1
    omega

theorem readRange_memWrite_of_disjoint (m : Mem) (i b start n : Nat)
    (h : i < start ∨ start + n ≤ i) :
    readRange (memWrite m i b) start n = readRange m start n := by
  apply readRange_congr
  intro j hj
  unfold memWrite
  rw [if_neg]; omega

theorem memWrite_read (m : Mem) (i b : Nat) : memWrite m i b i = b := by
  simp [memWrite]

theorem readRange_memWriteList_of_disjoint (m : Mem) (start n : Nat)
    (pos : Nat) (bs : List Nat)
    (h : pos + bs.length ≤ start ∨ start + n ≤ pos) :
    readRange (memWriteList m pos bs) start n = readRange m start n := by
  apply readRange_congr
  intro j hj
  unfold memWriteList
  rw [if_neg]; omega

theorem readRange_memWriteList_inside (m : Mem) (pos : Nat) (bs : List Nat) :
    readRange (memWriteList m pos bs) pos bs.length = bs := by
  apply List.ext_getElem
  · simp [readRange_length]
  · intro i h1 h2
    rw [readRange_getElem]
    unfold memWriteList
    rw [if_pos (by omega)]
    simp [List.getD_eq_getElem?_getD, List.getElem?_eq_getElem h2]

theorem readRange_getD (v : List Nat) (len : Nat) (h : len = v.length) :
    readRange (fun i => v.getD i 0) 0 len = v := by
  subst h
  apply List.ext_getElem
  · simp [readRange_length]
  · intro i h1 h2
    rw [readRange_getElem]
    simp [List.getD_eq_getElem?_getD, List.getElem?_eq_getElem h2]

/-! ### `GapBuffer` operation lemmas -/

theorem GapBuffer.reserve_spec (s : GapBuffer) (n : Nat) (s1 : GapBuffer)
    (hwf : s.wf) (h : s.reserve n = some s1) :
    s1.front_len = s.front_len ∧ s1.back_len = s.back_len ∧
    s1.front = s.front ∧ s1.back = s.back ∧ s1.wf ∧
    s.len + n ≤ s1.cap ∧ s.cap ≤ s1.cap ∧
    (s1.cap ≠ s.cap →
      s1.cap = max (s.len + n) (s.cap + max (s.cap / 16) 64)) := by
  obtain ⟨hlen, hcap⟩ := hwf
  unfold GapBuffer.reserve at h
  by_cases hfits : s.len + n ≤ s.cap
  · rw [calc_new_capacity, if_pos hfits] at h
    simp only [Option.some.injEq] at h
    subst h
    refine ⟨rfl, rfl, rfl, rfl, ⟨hlen, hcap⟩, ?_, le_refl _, ?_⟩
    · exact hfits
    · intro hne; exact absurd rfl hne
  · rw [calc_new_capacity, if_neg hfits] at h
    simp only [GapBuffer.set_capacity] at h
    set new_cap := max (s.len + n) (s.cap + max (s.cap / 16) 64) with hnc
    by_cases hiz : new_cap ≤ ISIZE_MAX
    · rw [if_pos hiz] at h
      simp only [Option.some.injEq] at h
      subst h
      have hgrow : s.cap < new_cap := by
        have : s.cap + 64 ≤ s.cap + max (s.cap / 16) 64 := by omega
        omega
      have hreq : s.len + n ≤ new_cap := le_max_left _ _
      have hroom : s.front_len ≤ new_cap - s.back_len := by
        unfold GapBuffer.len at hfits hreq
        omega
      refine ⟨rfl, rfl, ?_, ?_, ⟨?_, hiz⟩, hreq, le_of_lt hgrow, fun _ => rfl⟩
      · show readRange _ 0 s.front_len = readRange _ 0 s.front_len
        exact readRange_memCopy_of_disjoint _ _ _ _ _ _ (Or.inr (by omega))
      · show readRange _ (new_cap - s.back_len) s.back_len
             = readRange _ (s.cap - s.back_len) s.back_len
        exact readRange_memCopy_inside _ _ _ _
      · show s.front_len + s.back_len ≤ new_cap
        omega
    · rw [if_neg hiz] at h
      simp at h

theorem GapBuffer.push_spec (s : GapBuffer) (b : Nat) (s1 : GapBuffer)
    (hwf : s.wf) (h : s.push b = some s1) :
    s1.front = s.front ++ [b] ∧ s1.back = s.back ∧ s1.wf ∧
    s1.front_len = s.front_len + 1 ∧ s1.back_len = s.back_len := by
  unfold GapBuffer.push at h
  rw [Option.map_eq_some'] at h
  obtain ⟨s2, hres, hs1⟩ := h
  obtain ⟨hf, hb, hfr, hbk, ⟨hlen2, hcap2⟩, hroom, -, -⟩ :=
    GapBuffer.reserve_spec s 1 s2 hwf hres
  unfold GapBuffer.len at hroom
  subst hs1
  refine ⟨?_, ?_, ⟨?_, hcap2⟩, by simp [hf], by simp [hb]⟩
  · show readRange (memWrite s2.mem s2.gap_ptr b) 0 (s2.front_len + 1) = _
    rw [readRange_add]
    unfold GapBuffer.gap_ptr
    rw [readRange_memWrite_of_disjoint _ _ _ _ _ (Or.inr (by omega))]
    have h1 : readRange (memWrite s2.mem s2.front_len b) (0 + s2.front_len) 1
        = [b] := by
      simp [readRange, List.range_succ, memWrite]
    rw [h1, ← hfr]
    rfl
  · show readRange (memWrite s2.mem s2.gap_ptr b) (s2.cap - s2.back_len) s2.back_len
        = _
    unfold GapBuffer.gap_ptr
    rw [readRange_memWrite_of_disjoint _ _ _ _ _ (Or.inl (by omega))]
    exact hbk
  · show s2.front_len + 1 + s2.back_len ≤ s2.cap
    omega

theorem GapBuffer.push_back_spec (s : GapBuffer) (b : Nat) (s1 : GapBuffer)
    (hwf : s.wf) (h : s.push_back b = some s1) :
    s1.front = s.front ∧ s1.back = b :: s.back ∧ s1.wf ∧
    s1.front_len = s.front_len ∧ s1.back_len = s.back_len + 1 := by
  unfold GapBuffer.push_back at h
  rw [Option.map_eq_some'] at h
  obtain ⟨s2, hres, hs1⟩ := h
  obtain ⟨hf, hb, hfr, hbk, ⟨hlen2, hcap2⟩, hroom, -, -⟩ :=
    GapBuffer.reserve_spec s 1 s2 hwf hres
  unfold GapBuffer.len at hroom
  subst hs1
  refine ⟨?_, ?_, ⟨?_, hcap2⟩, hf, by simp [hb]⟩
  · show readRange (memWrite s2.mem (s2.cap - (s2.back_len + 1)) b) 0 s2.front_len
        = _
    rw [readRange_memWrite_of_disjoint _ _ _ _ _ (Or.inr (by omega))]
    exact hfr
  · show readRange (memWrite s2.mem (s2.cap - (s2.back_len + 1)) b)
        (s2.cap - (s2.back_len + 1)) (s2.back_len + 1) = _
    have hsplit : s2.back_len + 1 = 1 + s2.back_len := by omega
    rw [hsplit]
    rw [readRange_add]
    have h1 : readRange (memWrite s2.mem (s2.cap - (1 + s2.back_len)) b)
        (s2.cap - (1 + s2.back_len)) 1 = [b] := by
      simp [readRange, List.range_succ, memWrite]
    have h2 : s2.cap - (1 + s2.back_len) + 1 = s2.cap - s2.back_len := by omega
    rw [h1, h2,
      readRange_memWrite_of_disjoint _ _ _ _ _ (Or.inl (by omega))]
    have hb2 : readRange s2.mem (s2.cap - s2.back_len) s2.back_len = s.back := hbk
    rw [hb2]
    rfl
  · show s2.front_len + (s2.back_len + 1) ≤ s2.cap
    omega

theorem GapBuffer.push_slice_spec (s : GapBuffer) (bs : List Nat) (s1 : GapBuffer)
    (hwf : s.wf) (h : s.push_slice bs = some s1) :
    s1.front = s.front ++ bs ∧ s1.back = s.back ∧ s1.wf ∧
    s1.front_len = s.front_len + bs.length ∧ s1.back_len = s.back_len := by
  unfold GapBuffer.push_slice at h
  rw [Option.map_eq_some'] at h
  obtain ⟨s2, hres, hs1⟩ := h
  obtain ⟨hf, hb, hfr, hbk, ⟨hlen2, hcap2⟩, hroom, -, -⟩ :=
    GapBuffer.reserve_spec s bs.length s2 hwf hres
  unfold GapBuffer.len at hroom
  subst hs1
  refine ⟨?_, ?_, ⟨?_, hcap2⟩, by simp [hf], by simp [hb]⟩
  · show readRange (memWriteList s2.mem s2.gap_ptr bs) 0 (s2.front_len + bs.length)
        = _
    rw [readRange_add]
    unfold GapBuffer.gap_ptr
    rw [readRange_memWriteList_of_disjoint _ _ _ _ _ (Or.inr (by omega))]
    rw [Nat.zero_add, readRange_memWriteList_inside, ← hfr]
    rfl
  · show readRange (memWriteList s2.mem s2.gap_ptr bs)
        (s2.cap - s2.back_len) s2.back_len = _
    unfold GapBuffer.gap_ptr
    rw [readRange_memWriteList_of_disjoint _ _ _ _ _ (Or.inl (by omega))]
    exact hbk
  · show s2.front_len + bs.length + s2.back_len ≤ s2.cap
    omega

theorem GapBuffer.push_slice_back_spec (s : GapBuffer) (bs : List Nat)
    (s1 : GapBuffer) (hwf : s.wf) (h : s.push_slice_back bs = some s1) :
    s1.front = s.front ∧ s1.back = bs ++ s.back ∧ s1.wf ∧
    s1.front_len = s.front_len ∧ s1.back_len = s.back_len + bs.length := by
  unfold GapBuffer.push_slice_back at h
  rw [Option.map_eq_some'] at h
  obtain ⟨s2, hres, hs1⟩ := h
  obtain ⟨hf, hb, hfr, hbk, ⟨hlen2, hcap2⟩, hroom, -, -⟩ :=
    GapBuffer.reserve_spec s bs.length s2 hwf hres
  unfold GapBuffer.len at hroom
  subst hs1
  refine ⟨?_, ?_, ⟨?_, hcap2⟩, by simp [hf], by simp [hb]⟩
  · show readRange (memWriteList s2.mem (s2.cap - (s2.back_len + bs.length)) bs)
        0 s2.front_len = _
    rw [readRange_memWriteList_of_disjoint _ _ _ _ _ (Or.inr (by omega))]
    exact hfr
  · show readRange (memWriteList s2.mem (s2.cap - (s2.back_len + bs.length)) bs)
        (s2.cap - (s2.back_len + bs.length)) (s2.back_len + bs.length) = _
    have hsplit : s2.back_len + bs.length = bs.length + s2.back_len := by omega
    rw [hsplit]
    rw [readRange_add, readRange_memWriteList_inside]
    have h2 : s2.cap - (bs.length + s2.back_len) + bs.length
        = s2.cap - s2.back_len := by omega
    rw [h2,
      readRange_memWriteList_of_disjoint _ _ _ _ _ (Or.inl (by omega))]
    have hb2 : readRange s2.mem (s2.cap - s2.back_len) s2.back_len = s.back := hbk
    rw [hb2]
  · show s2.front_len + (s2.back_len + bs.length) ≤ s2.cap
    omega

theorem readRange_getElem? (m : Mem) (start len i : Nat) :
    (readRange m start len)[i]? = if i < len then some (m (start + i)) else none := by
  by_cases h : i < len
  · rw [if_pos h, List.getElem?_eq_getElem (by rw [readRange_length]; exact h)]
    rw [readRange_getElem]
  · rw [if_neg h, List.getElem?_eq_none]
    rw [readRange_length]
    omega

theorem GapBuffer.set_gap_spec (s : GapBuffer) (i : Nat) (s1 : GapBuffer)
    (hwf : s.wf) (h : s.set_gap i = some s1) :
    s1.cap = s.cap ∧ s1.front_len = i ∧ s1.back_len = s.len - i ∧ s1.wf ∧
    (i ≤ s.front_len →
      s1.front = s.front.take i ∧ s1.back = s.front.drop i ++ s.back) ∧
    (s.front_len < i →
      s1.front = s.front ++ s.back.take (i - s.front_len) ∧
      s1.back = s.back.drop (i - s.front_len)) := by
  obtain ⟨hlen, hcap⟩ := hwf
  unfold GapBuffer.set_gap at h
  by_cases hle : i ≤ s.len
  · rw [if_pos hle] at h
    unfold GapBuffer.len at hle
    by_cases hlt : i < s.front_len
    · rw [if_pos hlt] at h
      simp only [Option.some.injEq] at h
      subst h
      refine ⟨rfl, rfl,
        by show s.back_len + (s.front_len - i) = s.len - i
           unfold GapBuffer.len; omega,
        ⟨by show i + (s.back_len + (s.front_len - i)) ≤ s.cap; omega, hcap⟩,
        ?_, fun hcontra => absurd hcontra (by omega)⟩
      intro _
      constructor
      · show readRange (memCopy s.mem i (s.cap - (s.back_len + (s.front_len - i)))
            (s.front_len - i)) 0 i = s.front.take i
        rw [readRange_memCopy_of_disjoint _ _ _ _ _ _ (Or.inr (by omega))]
        rw [GapBuffer.front, readRange_take]
        congr 1
        omega
      · show readRange (memCopy s.mem i (s.cap - (s.back_len + (s.front_len - i)))
            (s.front_len - i))
            (s.cap - (s.back_len + (s.front_len - i)))
            (s.back_len + (s.front_len - i)) = s.front.drop i ++ s.back
        have hsplit : s.back_len + (s.front_len - i)
            = (s.front_len - i) + s.back_len := by omega
        rw [hsplit]
        rw [readRange_add, readRange_memCopy_inside]
        have h2 : s.cap - ((s.front_len - i) + s.back_len) + (s.front_len - i)
            = s.cap - s.back_len := by omega
        rw [h2, readRange_memCopy_of_disjoint _ _ _ _ _ _ (Or.inl (by omega))]
        rw [GapBuffer.front, readRange_drop, GapBuffer.back]
        congr 2
        omega
    · rw [if_neg hlt] at h
      by_cases hgt : s.front_len < i
      · rw [if_pos hgt] at h
        simp only [Option.some.injEq] at h
        subst h
        have hmove : i - s.front_len ≤ s.back_len := by omega
        refine ⟨rfl, rfl,
          by show s.back_len - (i - s.front_len) = s.len - i
             unfold GapBuffer.len; omega,
          ⟨by show i + (s.back_len - (i - s.front_len)) ≤ s.cap; omega, hcap⟩,
          fun hcontra => absurd hcontra (by omega), ?_⟩
        intro _
        constructor
        · show readRange (memCopy s.mem (s.cap - s.back_len) s.front_len
              (i - s.front_len)) 0 i
              = s.front ++ s.back.take (i - s.front_len)
          have key : readRange (memCopy s.mem (s.cap - s.back_len) s.front_len
              (i - s.front_len)) 0 (s.front_len + (i - s.front_len))
              = s.front ++ s.back.take (i - s.front_len) := by
            rw [readRange_add]
            rw [readRange_memCopy_of_disjoint _ _ _ _ _ _ (Or.inr (by omega))]
            rw [Nat.zero_add, readRange_memCopy_inside]
            rw [GapBuffer.front, GapBuffer.back, readRange_take]
            congr 2
            omega
          have hi : s.front_len + (i - s.front_len) = i := by omega
          rw [hi] at key
          exact key
        · show readRange (memCopy s.mem (s.cap - s.back_len) s.front_len
              (i - s.front_len))
              (s.cap - (s.back_len - (i - s.front_len)))
              (s.back_len - (i - s.front_len))
              = s.back.drop (i - s.front_len)
          rw [readRange_memCopy_of_disjoint _ _ _ _ _ _ (Or.inl (by omega))]
          rw [GapBuffer.back, readRange_drop]
          congr 2
          omega
      · rw [if_neg hgt] at h
        simp only [Option.some.injEq] at h
        subst h
        have hi : i = s.front_len := by omega
        subst hi
        refine ⟨rfl, rfl, by unfold GapBuffer.len; omega, ⟨hlen, hcap⟩,
          ?_, fun hcontra => absurd hcontra (by omega)⟩
        intro _
        constructor
        · have htake : s.front.take s.front_len = s.front := by
            rw [GapBuffer.front, readRange_take]
            congr 1
            omega
          rw [htake]
        · have hdrop : s.front.drop s.front_len = [] := by
            rw [GapBuffer.front, readRange_drop, Nat.sub_self]
            exact readRange_zero _ _
          rw [hdrop]
          rfl
  · rw [if_neg hle] at h
    simp at h

theorem GapBuffer.get_spec (s : GapBuffer) (i : Nat) :
    s.get i = (s.front ++ s.back)[i]? := by
  rw [GapBuffer.get, GapBuffer.front, GapBuffer.back, List.getElem?_append,
    readRange_length, readRange_getElem?, readRange_getElem?]
  split_ifs <;> first
    | rfl
    | omega
    | (congr 2; omega)

theorem GapBuffer.truncate_front_spec (s : GapBuffer) (n : Nat) :
    (s.truncate_front n).front = s.front.take n ∧
    (s.truncate_front n).back = s.back ∧
    (s.truncate_front n).front_len = min s.front_len n ∧
    (s.truncate_front n).back_len = s.back_len := by
  refine ⟨?_, rfl, rfl, rfl⟩
  show readRange s.mem 0 (min s.front_len n) = s.front.take n
  rw [GapBuffer.front, readRange_take]
  congr 1
  omega

theorem GapBuffer.truncate_back_spec (s : GapBuffer) (n : Nat)
    (hwf : s.wf) :
    (s.truncate_back n).back = s.back.drop (s.back_len - n) ∧
    (s.truncate_back n).front = s.front ∧
    (s.truncate_back n).front_len = s.front_len ∧
    (s.truncate_back n).back_len = min s.back_len n := by
  obtain ⟨hlen, -⟩ := hwf
  refine ⟨?_, rfl, rfl, rfl⟩
  show readRange s.mem (s.cap - min s.back_len n) (min s.back_len n)
      = s.back.drop (s.back_len - n)
  rw [GapBuffer.back, readRange_drop]
  congr 1 <;> omega

theorem GapBuffer.from_vec_front (v : List Nat) (vcap : Nat) :
    (GapBuffer.from_vec v vcap).front = v ∧
    (GapBuffer.from_vec v vcap).back = [] := by
  constructor
  · show readRange (fun i => v.getD i 0) 0 v.length = v
    exact readRange_getD v v.length rfl
  · show readRange _ (vcap - 0) 0 = []
    exact readRange_zero _ _

theorem GapBuffer.from_vec_into_vec (v : List Nat) (vcap : Nat)
    (hlen : v.length ≤ vcap) (hcap : vcap ≤ ISIZE_MAX) :
    (GapBuffer.from_vec v vcap).into_vec = some v := by
  unfold GapBuffer.into_vec
  by_cases h0 : vcap = 0
  · rw [if_pos (show (GapBuffer.from_vec v vcap).cap = 0 from h0)]
    have : v = [] := by
      have := hlen
      rw [h0] at this
      exact List.length_eq_zero.mp (by omega)
    rw [this]
  · rw [if_neg (show ¬(GapBuffer.from_vec v vcap).cap = 0 from h0)]
    unfold GapBuffer.shrink_to_fit GapBuffer.shrink_to
    rw [if_pos (le_refl _)]
    unfold GapBuffer.set_capacity
    rw [if_pos (by show v.length + 0 ≤ _; omega)]
    simp only [Option.map_some']
    congr 1
    show readRange
        (memCopy (fun i => v.getD i 0) (vcap - 0) (v.length + 0 - 0) 0)
        0 (v.length + 0) = v
    rw [readRange_memCopy_of_disjoint _ _ _ _ _ _ (Or.inr (by omega))]
    rw [readRange_getD v _ (by omega)]

/-! ### `GapVec` — the earlier rewrite (`crates/ash_gap_buffer/src/lib.rs`),
instantiated at `T = u8` (element size 1, so `MAX_RESERVE = isize::MAX`). -/

structure GapVec where
  cap : Nat
  mem : Mem
  front_len : Nat
  back_len : Nat

/-- `GapVec::with_capacity` via `RawVec::with_capacity` / `alloc_cap`
(`Layout::array::<u8>` fails above `isize::MAX`, modelled as `none`;
fresh memory is uninitialized, modelled as zeros). -/
def GapVec.with_capacity (capacity : Nat) : Option GapVec :=
  if capacity ≤ ISIZE_MAX then
    some { cap := capacity, mem := fun _ => 0, front_len := 0, back_len := 0 }
  else none

/-- `GapVec::len`. -/
def GapVec.len (s : GapVec) : Nat := s.front_len + s.back_len

/-- `GapVec::gap_len`. -/
def GapVec.gap_len (s : GapVec) : Nat := s.cap - s.len

/-- `GapVec::front`. -/
def GapVec.front (s : GapVec) : List Nat := readRange s.mem 0 s.front_len

/-- `GapVec::back`. -/
def GapVec.back (s : GapVec) : List Nat :=
  readRange s.mem (s.cap - s.back_len) s.back_len

/-- `RawVec::resize_to_fit`: grow to
`max (clamp (2*cap) MIN_RESERVE MAX_RESERVE) required` when needed. -/
def GapVec.resize_to_fit (s : GapVec) (required_cap : Nat) : Option GapVec :=
  if required_cap ≤ s.cap then some s
  else
    let new_cap := max (min (max (2 * s.cap) 8) ISIZE_MAX) required_cap
    if new_cap ≤ ISIZE_MAX then some { s with cap := new_cap } else none

/-- `GapVec::reserve`: early-return on `additional = 0`, resize, then move
the back region to the end of the new allocation. -/
def GapVec.reserve (s : GapVec) (additional : Nat) : Option GapVec :=
  if additional = 0 then some s
  else
    (s.resize_to_fit (s.len + additional)).map fun s1 =>
      { s1 with mem := memCopy s1.mem (s.cap - s.back_len) (s1.cap - s.back_len) s.back_len }

/-- `GapVec::push_slice`. -/
def GapVec.push_slice (s : GapVec) (slice : List Nat) : Option GapVec :=
  (s.reserve slice.length).map fun s1 =>
    { s1 with mem := memWriteList s1.mem s1.front_len slice,
              front_len := s1.front_len + slice.length }

/-- `GapVec::set_gap`: asserts bounds, early-returns on zero capacity, then
moves elements across the gap exactly as the source does. -/
def GapVec.set_gap (s : GapVec) (index : Nat) : Option GapVec :=
  if index ≤ s.len then
    some
      (if s.cap = 0 then s
      else if index < s.front_len then
        let len := s.front_len - index
        { s with front_len := index,
                 back_len := s.back_len + len,
                 mem := memCopy s.mem index (s.cap - (s.back_len + len)) len }
      else if s.front_len < index then
        let len := index - s.front_len
        { s with front_len := index,
                 back_len := s.back_len - len,
                 mem := memCopy s.mem (s.cap - s.back_len) s.front_len len }
      else s)
  else none

/-- `GapVec::pop_back`. -/
def GapVec.pop_back (s : GapVec) : Option Nat × GapVec :=
  if s.back_len = 0 then (none, s)
  else
    (some (s.mem (s.cap - s.back_len)), { s with back_len := s.back_len - 1 })

/-- `GapVec::get` composed with the dereference, via the source
`index_to_ptr`: out of bounds gives `None`; otherwise the offset is
`index + gap_len` only when `index > front_len` (note: strict), else
`index` itself. -/
def GapVec.get (s : GapVec) (index : Nat) : Option Nat :=
  if s.len ≤ index then none
  else if s.front_len < index then some (s.mem (index + s.gap_len))
  else some (s.mem index)

/-- The concrete run exercising `GapVec::index_to_ptr` at the region
boundary: capacity 8, `push_slice [10,20,30]`, `set_gap 0`, `pop_back`. -/
def gapVecDemo : GapVec :=
  let s0 := (GapVec.with_capacity 8).getD { cap := 0, mem := fun _ => 0, front_len := 0, back_len := 0 }
  let s1 := (s0.push_slice [10, 20, 30]).getD s0
  let s2 := (s1.set_gap 0).getD s1
  s2.pop_back.2


/-! ### UTF-8 encoding and the `GapString` layer (`src/str.rs`) -/

/-- `char::encode_utf8` on the scalar value (1–4 bytes). -/
def encodeChar (c : Char) : List Nat :=
  let n := c.toNat
  if n < 0x80 then [n]
  else if n < 0x800 then [0xC0 + n / 64, 0x80 + n % 64]
  else if n < 0x10000 then [0xE0 + n / 4096, 0x80 + n / 64 % 64, 0x80 + n % 64]
  else [0xF0 + n / 262144, 0x80 + n / 4096 % 64, 0x80 + n / 64 % 64, 0x80 + n % 64]

/-- `str::as_bytes` of the string holding the given characters. -/
def utf8Encode (cs : List Char) : List Nat := (cs.map encodeChar).flatten

/-- A byte sequence is valid UTF-8 iff it is the encoding of some character
sequence. -/
def Valid8 (bs : List Nat) : Prop := ∃ cs : List Char, bs = utf8Encode cs

/-- A UTF-8 continuation byte (`0b10xxxxxx`). -/
def isCont (b : Nat) : Bool := decide (0x80 ≤ b ∧ b < 0xC0)

/-- `is_utf8_char_boundary` from `src/str.rs`: `(byte as i8) >= -0x40`,
i.e. the byte is not a continuation byte (bytes are `< 256`). -/
def is_utf8_char_boundary (b : Nat) : Bool := decide (b < 0x80 ∨ 0xC0 ≤ b)

/-- Byte length of the trailing character of a valid string, as recovered by
`chars().next_back()`: one more than the trailing run of continuation bytes. -/
def lastCharLen (bs : List Nat) : Nat := (bs.reverse.takeWhile isCont).length + 1

/-- Byte length of the leading character of a valid string, as recovered by
`chars().next()` from the lead byte's tag bits. -/
def utf8LenFromLeadByte (b : Nat) : Nat :=
  if b < 0x80 then 1 else if b < 0xE0 then 2 else if b < 0xF0 then 3 else 4

/-- `str::is_char_boundary` from the Rust standard library (used by
`GapString::truncate_front` / `truncate_back` on a single region). -/
def strIsCharBoundary (bs : List Nat) (index : Nat) : Bool :=
  if index = 0 then true
  else if index = bs.length then true
  else if bs.length < index then false
  else is_utf8_char_boundary (bs.getD index 0)

/-- `GapString` wraps a byte `GapBuffer` (`src/str.rs`). -/
structure GapString where
  inner : GapBuffer

/-- `GapString::new`. -/
def GapString.new : GapString := ⟨GapBuffer.new⟩

/-- `GapString::len`. -/
def GapString.len (s : GapString) : Nat := s.inner.len

/-- `GapString::is_empty`. -/
def GapString.is_empty (s : GapString) : Bool := s.inner.is_empty

/-- `GapString::front` (the region's bytes; valid UTF-8 by the invariant). -/
def GapString.front (s : GapString) : List Nat := s.inner.front

/-- `GapString::back`. -/
def GapString.back (s : GapString) : List Nat := s.inner.back

/-- `GapString::push`: one byte for an ASCII character (`ch as u8`),
otherwise the encoded bytes via `push_slice`. -/
def GapString.push (s : GapString) (c : Char) : Option GapString :=
  if (encodeChar c).length = 1 then (s.inner.push c.toNat).map GapString.mk
  else (s.inner.push_slice (encodeChar c)).map GapString.mk

/-- `GapString::push_back`. -/
def GapString.push_back (s : GapString) (c : Char) : Option GapString :=
  if (encodeChar c).length = 1 then (s.inner.push_back c.toNat).map GapString.mk
  else (s.inner.push_slice_back (encodeChar c)).map GapString.mk

/-- `GapString::push_str`. -/
def GapString.push_str (s : GapString) (str : List Char) : Option GapString :=
  (s.inner.push_slice (utf8Encode str)).map GapString.mk

/-- `GapString::push_str_back`. -/
def GapString.push_str_back (s : GapString) (str : List Char) : Option GapString :=
  (s.inner.push_slice_back (utf8Encode str)).map GapString.mk

/-- `GapString::pop`: decode the last front character, truncate its bytes
away, return it (returned as its byte encoding). -/
def GapString.pop (s : GapString) : Option (List Nat) × GapString :=
  if s.inner.front_len = 0 then (none, s)
  else
    let new_len := s.inner.front_len - lastCharLen s.front
    (some (s.front.drop new_len), ⟨s.inner.truncate_front new_len⟩)

/-- `GapString::pop_back`: decode the first back character, truncate its
bytes away, return it (returned as its byte encoding). -/
def GapString.pop_back (s : GapString) : Option (List Nat) × GapString :=
  if s.inner.back_len = 0 then (none, s)
  else
    let n := utf8LenFromLeadByte (s.back.headD 0)
    (some (s.back.take n), ⟨s.inner.truncate_back (s.inner.back_len - n)⟩)

/-- The two panics of `GapString::set_gap`, in assertion order. -/
inductive GapStrPanic where
  | outOfBounds
  | notCharBoundary
deriving DecidableEq

/-- `GapString::is_char_boundary`: look the byte up by logical index; a miss
is a boundary only at `len`, a hit checks the byte's tag bits. -/
def GapString.is_char_boundary (s : GapString) (index : Nat) : Bool :=
  match s.inner.get index with
  | none => index = s.len
  | some b => is_utf8_char_boundary b

/-- `GapString::set_gap`: asserts bounds first, then the character-boundary
check, then delegates; each panic is modelled as a distinct error and
happens before any mutation. -/
def GapString.set_gap (s : GapString) (index : Nat) : Except GapStrPanic GapString :=
  if index ≤ s.len then
    if s.is_char_boundary index then
      match s.inner.set_gap index with
      | some b => .ok ⟨b⟩
      | none => .error .outOfBounds
    else .error .notCharBoundary
  else .error .outOfBounds

/-- `GapString::truncate_front`: fails fast unless `len` is a character
boundary of the front region. -/
def GapString.truncate_front (s : GapString) (len : Nat) : Option GapString :=
  if strIsCharBoundary s.front len then some ⟨s.inner.truncate_front len⟩
  else none

/-- `GapString::truncate_back`: fails fast unless the implied split index is
a character boundary of the back region. -/
def GapString.truncate_back (s : GapString) (len : Nat) : Option GapString :=
  let len1 := min s.inner.back_len len
  let index := s.inner.back_len - len1
  if strIsCharBoundary s.back index then some ⟨s.inner.truncate_back len1⟩
  else none

/-- `impl From<&str> for GapString`: `as_bytes().into()`, i.e. a fresh
buffer plus `push_slice`. -/
def GapString.fromStr (str : List Char) : Option GapString :=
  (GapBuffer.new.push_slice (utf8Encode str)).map GapString.mk

/-- The `GapString` invariant (spec §4.3): the wrapped buffer is well-formed
and both regions are independently valid UTF-8. -/
def GapString.StrInv (s : GapString) : Prop :=
  s.inner.wf ∧ Valid8 s.front ∧ Valid8 s.back

/-! ### UTF-8 lemmas -/

theorem char_toNat_lt (c : Char) : c.toNat < 0x110000 := by
  rcases c.valid with h | ⟨-, h⟩
  · show c.val.toNat < _
    omega
  · exact h

theorem encodeChar_structure (c : Char) :
    ∃ lead conts, encodeChar c = lead :: conts ∧ isCont lead = false ∧
      (∀ b ∈ conts, isCont b = true) ∧ (∀ b ∈ encodeChar c, b < 256) := by
  have hv : c.toNat < 0x110000 := char_toNat_lt c
  unfold encodeChar
  by_cases h1 : c.toNat < 0x80
  · rw [if_pos h1]
    refine ⟨c.toNat, [], rfl, ?_, by simp, ?_⟩
    · simp only [isCont, decide_eq_false_iff_not]
      omega
    · intro b hb
      simp only [List.mem_singleton] at hb
      omega
  · rw [if_neg h1]
    by_cases h2 : c.toNat < 0x800
    · rw [if_pos h2]
      refine ⟨_, _, rfl, ?_, ?_, ?_⟩
      · simp only [isCont, decide_eq_false_iff_not]
        omega
      · intro b hb
        simp only [List.mem_singleton] at hb
        subst hb
        simp only [isCont, decide_eq_true_eq]
        omega
      · intro b hb
        simp only [List.mem_cons, List.mem_singleton] at hb
        rcases hb with rfl | rfl | h
        · omega
        · omega
        · simp at h
    · rw [if_neg h2]
      by_cases h3 : c.toNat < 0x10000
      · rw [if_pos h3]
        refine ⟨_, _, rfl, ?_, ?_, ?_⟩
        · simp only [isCont, decide_eq_false_iff_not]
          omega
        · intro b hb
          simp only [List.mem_cons, List.mem_singleton] at hb
          rcases hb with rfl | rfl | h
          · simp only [isCont, decide_eq_true_eq]
            omega
          · simp only [isCont, decide_eq_true_eq]
            omega
          · simp at h
        · intro b hb
          simp only [List.mem_cons, List.mem_singleton] at hb
          rcases hb with rfl | rfl | rfl | h
          · omega
          · omega
          · omega
          · simp at h
      · rw [if_neg h3]
        refine ⟨_, _, rfl, ?_, ?_, ?_⟩
        · simp only [isCont, decide_eq_false_iff_not]
          omega
        · intro b hb
          simp only [List.mem_cons, List.mem_singleton] at hb
          rcases hb with rfl | rfl | rfl | h
          · simp only [isCont, decide_eq_true_eq]
            omega
          · simp only [isCont, decide_eq_true_eq]
            omega
          · simp only [isCont, decide_eq_true_eq]
            omega
          · simp at h
        · intro b hb
          simp only [List.mem_cons, List.mem_singleton] at hb
          rcases hb with rfl | rfl | rfl | rfl | h
          · omega
          · omega
          · omega
          · omega
          · simp at h

theorem utf8LenFromLeadByte_encode (c : Char) :
    utf8LenFromLeadByte ((encodeChar c).headD 0) = (encodeChar c).length := by
  have hv : c.toNat < 0x110000 := char_toNat_lt c
  unfold encodeChar utf8LenFromLeadByte
  by_cases h1 : c.toNat < 0x80
  · rw [if_pos h1]
    simp only [List.headD_cons, List.length_singleton]
    rw [if_pos h1]
  · rw [if_neg h1]
    by_cases h2 : c.toNat < 0x800
    · rw [if_pos h2]
      simp only [List.headD_cons, List.length_cons, List.length_singleton]
      rw [if_neg (by omega), if_pos (by omega)]
      simp
    · rw [if_neg h2]
      by_cases h3 : c.toNat < 0x10000
      · rw [if_pos h3]
        simp only [List.headD_cons, List.length_cons, List.length_singleton]
        rw [if_neg (by omega), if_neg (by omega), if_pos (by omega)]
        simp
      · rw [if_neg h3]
        simp only [List.headD_cons, List.length_cons, List.length_singleton]
        rw [if_neg (by omega), if_neg (by omega), if_neg (by omega)]
        simp

theorem utf8Encode_cons (c : Char) (cs : List Char) :
    utf8Encode (c :: cs) = encodeChar c ++ utf8Encode cs := by
  simp [utf8Encode]

theorem utf8Encode_append (a b : List Char) :
    utf8Encode (a ++ b) = utf8Encode a ++ utf8Encode b := by
  simp [utf8Encode]

theorem Valid8_nil : Valid8 [] := ⟨[], rfl⟩

theorem Valid8_append {x y : List Nat} (hx : Valid8 x) (hy : Valid8 y) :
    Valid8 (x ++ y) := by
  obtain ⟨a, rfl⟩ := hx
  obtain ⟨b, rfl⟩ := hy
  exact ⟨a ++ b, (utf8Encode_append a b).symm⟩

theorem Valid8_encodeChar (c : Char) : Valid8 (encodeChar c) :=
  ⟨[c], by simp [utf8Encode]⟩

theorem utf8Encode_bytes_lt (cs : List Char) :
    ∀ b ∈ utf8Encode cs, b < 256 := by
  intro b hb
  unfold utf8Encode at hb
  rw [List.mem_flatten] at hb
  obtain ⟨l, hl, hbl⟩ := hb
  rw [List.mem_map] at hl
  obtain ⟨c, -, rfl⟩ := hl
  obtain ⟨-, -, -, -, -, hlt⟩ := encodeChar_structure c
  exact hlt b hbl

theorem takeWhile_all_append (p : Nat → Bool) (l1 : List Nat) (x : Nat)
    (l2 : List Nat) (h1 : ∀ b ∈ l1, p b = true) (h2 : p x = false) :
    (l1 ++ x :: l2).takeWhile p = l1 := by
  induction l1 with
  | nil =>
    simp [List.takeWhile_cons, h2]
  | cons a l ih =>
    rw [List.cons_append, List.takeWhile_cons, h1 a (by simp)]
    rw [ih (fun b hb => h1 b (by simp [hb]))]
    simp

theorem lastCharLen_append_encode (bs : List Nat) (c : Char) :
    lastCharLen (bs ++ encodeChar c) = (encodeChar c).length := by
  obtain ⟨lead, conts, henc, hlead, hconts, -⟩ := encodeChar_structure c
  rw [henc]
  unfold lastCharLen
  have hrev : (bs ++ lead :: conts).reverse
      = conts.reverse ++ lead :: bs.reverse := by
    rw [List.reverse_append, List.reverse_cons, List.append_assoc]
    simp
  rw [hrev, takeWhile_all_append isCont conts.reverse lead bs.reverse
    (fun b hb => hconts b (List.mem_reverse.mp hb)) hlead]
  simp

theorem Valid8_split (cs : List Char) (i : Nat)
    (hb : i = (utf8Encode cs).length ∨ isCont ((utf8Encode cs).getD i 0) = false) :
    Valid8 ((utf8Encode cs).take i) ∧ Valid8 ((utf8Encode cs).drop i) := by
  induction cs generalizing i with
  | nil =>
    constructor <;> simpa [utf8Encode] using Valid8_nil
  | cons c cs ih =>
    rw [utf8Encode_cons] at hb ⊢
    obtain ⟨lead, conts, henc, -, hconts, -⟩ := encodeChar_structure c
    by_cases h0 : i = 0
    · subst h0
      exact ⟨Valid8_nil, ⟨c :: cs, by rw [List.drop_zero, utf8Encode_cons]⟩⟩
    · by_cases hin : i < (encodeChar c).length
      · exfalso
        have hlen : (encodeChar c).length
            ≤ (encodeChar c ++ utf8Encode cs).length := by
          simp
        rcases hb with hb | hb
        · omega
        · rw [List.getD_append _ _ _ _ hin] at hb
          rw [henc] at hb hin
          obtain ⟨j, rfl⟩ : ∃ j, i = j + 1 := ⟨i - 1, by omega⟩
          rw [List.getD_cons_succ] at hb
          have hj : j < conts.length := by
            simp only [List.length_cons] at hin
            omega
          rw [List.getD_eq_getElem conts 0 hj] at hb
          rw [hconts conts[j] (List.getElem_mem hj)] at hb
          simp at hb
      · have hge : (encodeChar c).length ≤ i := by omega
        have hb2 : i - (encodeChar c).length = (utf8Encode cs).length ∨
            isCont ((utf8Encode cs).getD (i - (encodeChar c).length) 0) = false := by
          rcases hb with hb | hb
          · left
            simp only [List.length_append] at hb
            omega
          · right
            rw [List.getD_append_right _ _ _ _ hge] at hb
            exact hb
        obtain ⟨v1, v2⟩ := ih (i - (encodeChar c).length) hb2
        constructor
        · rw [List.take_append_eq_append_take,
            List.take_of_length_le hge]
          exact Valid8_append (Valid8_encodeChar c) v1
        · rw [List.drop_append_eq_append_drop,
            List.drop_eq_nil_of_le hge, List.nil_append]
          exact v2

theorem Valid8_bytes_lt {bs : List Nat} (hv : Valid8 bs) :
    ∀ b ∈ bs, b < 256 := by
  obtain ⟨cs, rfl⟩ := hv
  exact utf8Encode_bytes_lt cs

theorem isCont_of_boundary (b : Nat) (hlt : b < 256)
    (h : is_utf8_char_boundary b = true) : isCont b = false := by
  simp only [is_utf8_char_boundary, decide_eq_true_eq] at h
  simp only [isCont, decide_eq_false_iff_not]
  omega

theorem Valid8_take_drop (bs : List Nat) (i : Nat) (hv : Valid8 bs)
    (hb : i = bs.length ∨ isCont (bs.getD i 0) = false) :
    Valid8 (bs.take i) ∧ Valid8 (bs.drop i) := by
  obtain ⟨cs, rfl⟩ := hv
  exact Valid8_split cs i hb

theorem Valid8_take_drop_of_strBoundary (bs : List Nat) (i : Nat)
    (hv : Valid8 bs) (h : strIsCharBoundary bs i = true) :
    Valid8 (bs.take i) ∧ Valid8 (bs.drop i) := by
  unfold strIsCharBoundary at h
  by_cases h0 : i = 0
  · subst h0
    exact ⟨by simpa using Valid8_nil, by simpa using hv⟩
  · rw [if_neg h0] at h
    by_cases hL : i = bs.length
    · refine ⟨?_, ?_⟩
      · rw [List.take_of_length_le (by omega)]
        exact hv
      · rw [List.drop_eq_nil_of_le (by omega)]
        exact Valid8_nil
    · rw [if_neg hL] at h
      by_cases hGT : bs.length < i
      · rw [if_pos hGT] at h
        simp at h
      · rw [if_neg hGT] at h
        have hi : i < bs.length := by omega
        have hmem : bs.getD i 0 ∈ bs := by
          rw [List.getD_eq_getElem bs 0 hi]
          exact List.getElem_mem hi
        exact Valid8_take_drop bs i hv
          (Or.inr (isCont_of_boundary _ (Valid8_bytes_lt hv _ hmem) h))

theorem encodeChar_length_one (c : Char) (h : (encodeChar c).length = 1) :
    encodeChar c = [c.toNat] := by
  unfold encodeChar at h ⊢
  by_cases h1 : c.toNat < 0x80
  · rw [if_pos h1]
  · rw [if_neg h1] at h ⊢
    by_cases h2 : c.toNat < 0x800
    · rw [if_pos h2] at h
      simp at h
    · rw [if_neg h2] at h ⊢
      by_cases h3 : c.toNat < 0x10000
      · rw [if_pos h3] at h
        simp at h
      · rw [if_neg h3] at h
        simp at h

theorem GapBuffer.truncate_front_wf (s : GapBuffer) (n : Nat) (hwf : s.wf) :
    (s.truncate_front n).wf := by
  obtain ⟨h1, h2⟩ := hwf
  exact ⟨by show min s.front_len n + s.back_len ≤ s.cap; omega, h2⟩

theorem GapBuffer.truncate_back_wf (s : GapBuffer) (n : Nat) (hwf : s.wf) :
    (s.truncate_back n).wf := by
  obtain ⟨h1, h2⟩ := hwf
  exact ⟨by show s.front_len + min s.back_len n ≤ s.cap; omega, h2⟩

theorem GapString.push_preserves (s : GapString) (c : Char) (s1 : GapString)
    (hinv : s.StrInv) (h : s.push c = some s1) :
    s1.front = s.front ++ encodeChar c ∧ s1.back = s.back ∧ s1.StrInv := by
  obtain ⟨hwf, hFv, hBv⟩ := hinv
  have main : s1.inner.front = s.inner.front ++ encodeChar c ∧
      s1.inner.back = s.inner.back ∧ s1.inner.wf := by
    unfold GapString.push at h
    by_cases h1 : (encodeChar c).length = 1
    · rw [if_pos h1] at h
      rw [Option.map_eq_some'] at h
      obtain ⟨b1, hb, rfl⟩ := h
      obtain ⟨hf, hbk, hwf1, -, -⟩ := GapBuffer.push_spec _ _ _ hwf hb
      rw [encodeChar_length_one c h1]
      exact ⟨hf, hbk, hwf1⟩
    · rw [if_neg h1] at h
      rw [Option.map_eq_some'] at h
      obtain ⟨b1, hb, rfl⟩ := h
      obtain ⟨hf, hbk, hwf1, -, -⟩ := GapBuffer.push_slice_spec _ _ _ hwf hb
      exact ⟨hf, hbk, hwf1⟩
  obtain ⟨hf, hbk, hwf1⟩ := main
  refine ⟨hf, hbk, hwf1, ?_, ?_⟩
  · show Valid8 s1.inner.front
    rw [hf]
    exact Valid8_append hFv (Valid8_encodeChar c)
  · show Valid8 s1.inner.back
    rw [hbk]
    exact hBv

theorem GapString.push_back_preserves (s : GapString) (c : Char) (s1 : GapString)
    (hinv : s.StrInv) (h : s.push_back c = some s1) :
    s1.front = s.front ∧ s1.back = encodeChar c ++ s.back ∧ s1.StrInv := by
  obtain ⟨hwf, hFv, hBv⟩ := hinv
  have main : s1.inner.front = s.inner.front ∧
      s1.inner.back = encodeChar c ++ s.inner.back ∧ s1.inner.wf := by
    unfold GapString.push_back at h
    by_cases h1 : (encodeChar c).length = 1
    · rw [if_pos h1] at h
      rw [Option.map_eq_some'] at h
      obtain ⟨b1, hb, rfl⟩ := h
      obtain ⟨hf, hbk, hwf1, -, -⟩ := GapBuffer.push_back_spec _ _ _ hwf hb
      rw [encodeChar_length_one c h1]
      exact ⟨hf, hbk, hwf1⟩
    · rw [if_neg h1] at h
      rw [Option.map_eq_some'] at h
      obtain ⟨b1, hb, rfl⟩ := h
      obtain ⟨hf, hbk, hwf1, -, -⟩ := GapBuffer.push_slice_back_spec _ _ _ hwf hb
      exact ⟨hf, hbk, hwf1⟩
  obtain ⟨hf, hbk, hwf1⟩ := main
  refine ⟨hf, hbk, hwf1, ?_, ?_⟩
  · show Valid8 s1.inner.front
    rw [hf]
    exact hFv
  · show Valid8 s1.inner.back
    rw [hbk]
    exact Valid8_append (Valid8_encodeChar c) hBv

theorem GapString.push_str_preserves (s : GapString) (str : List Char)
    (s1 : GapString) (hinv : s.StrInv) (h : s.push_str str = some s1) :
    s1.front = s.front ++ utf8Encode str ∧ s1.back = s.back ∧ s1.StrInv := by
  obtain ⟨hwf, hFv, hBv⟩ := hinv
  unfold GapString.push_str at h
  rw [Option.map_eq_some'] at h
  obtain ⟨b1, hb, rfl⟩ := h
  obtain ⟨hf, hbk, hwf1, -, -⟩ := GapBuffer.push_slice_spec _ _ _ hwf hb
  refine ⟨hf, hbk, hwf1, ?_, ?_⟩
  · show Valid8 b1.front
    rw [hf]
    exact Valid8_append hFv ⟨str, rfl⟩
  · show Valid8 b1.back
    rw [hbk]
    exact hBv

theorem GapString.push_str_back_preserves (s : GapString) (str : List Char)
    (s1 : GapString) (hinv : s.StrInv) (h : s.push_str_back str = some s1) :
    s1.front = s.front ∧ s1.back = utf8Encode str ++ s.back ∧ s1.StrInv := by
  obtain ⟨hwf, hFv, hBv⟩ := hinv
  unfold GapString.push_str_back at h
  rw [Option.map_eq_some'] at h
  obtain ⟨b1, hb, rfl⟩ := h
  obtain ⟨hf, hbk, hwf1, -, -⟩ := GapBuffer.push_slice_back_spec _ _ _ hwf hb
  refine ⟨hf, hbk, hwf1, ?_, ?_⟩
  · show Valid8 b1.front
    rw [hf]
    exact hFv
  · show Valid8 b1.back
    rw [hbk]
    exact Valid8_append ⟨str, rfl⟩ hBv

theorem GapString.pop_preserves (s : GapString) (hinv : s.StrInv) :
    (s.pop.2).StrInv ∧ ((s.pop.1 = none) ↔ s.inner.front_len = 0) ∧
    (s.inner.front_len = 0 → s.pop.2 = s) := by
  obtain ⟨hwf, hFv, hBv⟩ := hinv
  unfold GapString.pop
  by_cases hz : s.inner.front_len = 0
  · rw [if_pos hz]
    exact ⟨⟨hwf, hFv, hBv⟩, by simp [hz], fun _ => rfl⟩
  · rw [if_neg hz]
    obtain ⟨csF, hF⟩ := hFv
    have hflen : s.front.length = s.inner.front_len := readRange_length _ _ _
    have hne : csF ≠ [] := by
      intro hcs
      rw [hcs] at hF
      have : s.front.length = 0 := by rw [hF]; rfl
      omega
    have hsplitcs : csF.dropLast ++ [csF.getLast hne] = csF :=
      List.dropLast_append_getLast hne
    have hF2 : s.front = utf8Encode csF.dropLast
        ++ encodeChar (csF.getLast hne) := by
      conv_lhs => rw [hF, ← hsplitcs]
      rw [utf8Encode_append]
      simp [utf8Encode]
    have hlcl : lastCharLen s.front = (encodeChar (csF.getLast hne)).length := by
      rw [hF2]
      exact lastCharLen_append_encode _ _
    have hlen2 : (utf8Encode csF.dropLast).length
        + (encodeChar (csF.getLast hne)).length = s.inner.front_len := by
      rw [← hflen, hF2]
      simp
    refine ⟨⟨GapBuffer.truncate_front_wf _ _ hwf, ?_, ?_⟩, by simp [hz],
      fun hc => absurd hc hz⟩
    · show Valid8 (s.inner.truncate_front
        (s.inner.front_len - lastCharLen s.front)).front
      obtain ⟨hfr, -, -, -⟩ := GapBuffer.truncate_front_spec s.inner
        (s.inner.front_len - lastCharLen s.front)
      rw [hfr]
      have harg : s.inner.front_len - lastCharLen s.front
          = (utf8Encode csF.dropLast).length := by omega
      show Valid8 (s.front.take _)
      rw [harg, hF2, List.take_left]
      exact ⟨csF.dropLast, rfl⟩
    · show Valid8 (s.inner.truncate_front
        (s.inner.front_len - lastCharLen s.front)).back
      obtain ⟨-, hbk, -, -⟩ := GapBuffer.truncate_front_spec s.inner
        (s.inner.front_len - lastCharLen s.front)
      rw [hbk]
      exact hBv

theorem GapString.pop_back_preserves (s : GapString) (hinv : s.StrInv) :
    (s.pop_back.2).StrInv ∧ ((s.pop_back.1 = none) ↔ s.inner.back_len = 0) ∧
    (s.inner.back_len = 0 → s.pop_back.2 = s) := by
  obtain ⟨hwf, hFv, hBv⟩ := hinv
  unfold GapString.pop_back
  by_cases hz : s.inner.back_len = 0
  · rw [if_pos hz]
    exact ⟨⟨hwf, hFv, hBv⟩, by simp [hz], fun _ => rfl⟩
  · rw [if_neg hz]
    obtain ⟨csB, hB⟩ := hBv
    have hblen : s.back.length = s.inner.back_len := readRange_length _ _ _
    cases csB with
    | nil =>
      exfalso
      have : s.back.length = 0 := by rw [hB]; rfl
      omega
    | cons c cs2 =>
      have hB2 : s.back = encodeChar c ++ utf8Encode cs2 := by
        rw [hB, utf8Encode_cons]
      obtain ⟨lead, conts, henc, -, -, -⟩ := encodeChar_structure c
      have hhead : s.back.headD 0 = (encodeChar c).headD 0 := by
        rw [hB2, henc, List.cons_append, List.headD_cons, List.headD_cons]
      have hn : utf8LenFromLeadByte (s.back.headD 0) = (encodeChar c).length := by
        rw [hhead]
        exact utf8LenFromLeadByte_encode c
      have hlen2 : (encodeChar c).length + (utf8Encode cs2).length
          = s.inner.back_len := by
        rw [← hblen, hB2]
        simp
      refine ⟨⟨GapBuffer.truncate_back_wf _ _ hwf, ?_, ?_⟩, by simp [hz],
        fun hc => absurd hc hz⟩
      · show Valid8 (s.inner.truncate_back
          (s.inner.back_len - utf8LenFromLeadByte (s.back.headD 0))).front
        obtain ⟨-, hfr, -, -⟩ := GapBuffer.truncate_back_spec s.inner
          (s.inner.back_len - utf8LenFromLeadByte (s.back.headD 0)) hwf
        rw [hfr]
        exact hFv
      · show Valid8 (s.inner.truncate_back
          (s.inner.back_len - utf8LenFromLeadByte (s.back.headD 0))).back
        obtain ⟨hbk, -, -, -⟩ := GapBuffer.truncate_back_spec s.inner
          (s.inner.back_len - utf8LenFromLeadByte (s.back.headD 0)) hwf
        rw [hbk]
        have harg : s.inner.back_len
            - (s.inner.back_len - utf8LenFromLeadByte (s.back.headD 0))
            = (encodeChar c).length := by omega
        show Valid8 (s.back.drop _)
        rw [harg, hB2, List.drop_left]
        exact ⟨cs2, rfl⟩

theorem GapString.set_gap_preserves (s : GapString) (i : Nat) (s1 : GapString)
    (hinv : s.StrInv) (h : s.set_gap i = .ok s1) :
    s1.StrInv ∧ s1.front ++ s1.back = s.front ++ s.back := by
  obtain ⟨hwf, hFv, hBv⟩ := hinv
  unfold GapString.set_gap at h
  by_cases hle : i ≤ s.len
  · rw [if_pos hle] at h
    by_cases hbd : s.is_char_boundary i = true
    · rw [if_pos hbd] at h
      cases hsg : s.inner.set_gap i with
      | none =>
        rw [hsg] at h
        simp at h
      | some b =>
        rw [hsg] at h
        simp only [Except.ok.injEq] at h
        subst h
        obtain ⟨hcap, hfl, hbl, hwf1, hbelow, habove⟩ :=
          GapBuffer.set_gap_spec s.inner i b hwf hsg
        have hflen : s.inner.front.length = s.inner.front_len :=
          readRange_length _ _ _
        have hblen : s.inner.back.length = s.inner.back_len :=
          readRange_length _ _ _
        have hcat : (s.inner.front ++ s.inner.back).length = s.len := by
          simp only [List.length_append]
          rw [hflen, hblen]
          rfl
        -- the new regions are exactly the split of the old concatenation
        have hfr2 : b.front = (s.inner.front ++ s.inner.back).take i ∧
            b.back = (s.inner.front ++ s.inner.back).drop i := by
          by_cases hcase : i ≤ s.inner.front_len
          · obtain ⟨hfr, hbk⟩ := hbelow hcase
            constructor
            · rw [List.take_append_eq_append_take,
                show i - s.inner.front.length = 0 by omega]
              simp [hfr]
            · rw [List.drop_append_eq_append_drop,
                show i - s.inner.front.length = 0 by omega]
              simp [hbk]
          · obtain ⟨hfr, hbk⟩ := habove (by omega)
            constructor
            · rw [List.take_append_eq_append_take,
                List.take_of_length_le (by omega), hflen]
              rw [hfr]
            · rw [List.drop_append_eq_append_drop,
                List.drop_eq_nil_of_le (by omega), hflen, List.nil_append]
              rw [hbk]
        -- validity of the split, from the boundary check
        have hvcat : Valid8 (s.inner.front ++ s.inner.back) :=
          Valid8_append hFv hBv
        have hsplit : Valid8 ((s.inner.front ++ s.inner.back).take i) ∧
            Valid8 ((s.inner.front ++ s.inner.back).drop i) := by
          apply Valid8_take_drop _ _ hvcat
          by_cases hi : i = s.len
          · left
            omega
          · right
            have hilt : i < (s.inner.front ++ s.inner.back).length := by omega
            unfold GapString.is_char_boundary at hbd
            have hget := GapBuffer.get_spec s.inner i
            rw [List.getElem?_eq_getElem hilt] at hget
            rw [hget] at hbd
            have hmem : (s.inner.front ++ s.inner.back)[i]
                ∈ s.inner.front ++ s.inner.back := List.getElem_mem hilt
            rw [List.getD_eq_getElem _ 0 hilt]
            exact isCont_of_boundary _ (Valid8_bytes_lt hvcat _ hmem) hbd
        refine ⟨⟨hwf1, ?_, ?_⟩, ?_⟩
        · show Valid8 b.front
          rw [hfr2.1]
          exact hsplit.1
        · show Valid8 b.back
          rw [hfr2.2]
          exact hsplit.2
        · show b.front ++ b.back = _
          rw [hfr2.1, hfr2.2, List.take_append_drop]
          rfl
    · rw [if_neg hbd] at h
      simp at h
  · rw [if_neg hle] at h
    simp at h

theorem GapString.truncate_front_preserves (s : GapString) (n : Nat)
    (s1 : GapString) (hinv : s.StrInv) (h : s.truncate_front n = some s1) :
    s1.StrInv := by
  obtain ⟨hwf, hFv, hBv⟩ := hinv
  unfold GapString.truncate_front at h
  by_cases hbd : strIsCharBoundary s.front n = true
  · rw [if_pos hbd] at h
    simp only [Option.some.injEq] at h
    subst h
    obtain ⟨hfr, hbk, -, -⟩ := GapBuffer.truncate_front_spec s.inner n
    refine ⟨GapBuffer.truncate_front_wf _ _ hwf, ?_, ?_⟩
    · show Valid8 (s.inner.truncate_front n).front
      rw [hfr]
      exact (Valid8_take_drop_of_strBoundary _ _ hFv hbd).1
    · show Valid8 (s.inner.truncate_front n).back
      rw [hbk]
      exact hBv
  · rw [if_neg hbd] at h
    simp at h

theorem GapString.truncate_back_preserves (s : GapString) (n : Nat)
    (s1 : GapString) (hinv : s.StrInv) (h : s.truncate_back n = some s1) :
    s1.StrInv := by
  obtain ⟨hwf, hFv, hBv⟩ := hinv
  unfold GapString.truncate_back at h
  by_cases hbd : strIsCharBoundary s.back
      (s.inner.back_len - min s.inner.back_len n) = true
  · rw [if_pos hbd] at h
    simp only [Option.some.injEq] at h
    subst h
    obtain ⟨hbk, hfr, -, -⟩ := GapBuffer.truncate_back_spec s.inner
      (min s.inner.back_len n) hwf
    refine ⟨GapBuffer.truncate_back_wf _ _ hwf, ?_, ?_⟩
    · show Valid8 (s.inner.truncate_back (min s.inner.back_len n)).front
      rw [hfr]
      exact hFv
    · show Valid8 (s.inner.truncate_back (min s.inner.back_len n)).back
      rw [hbk]
      exact (Valid8_take_drop_of_strBoundary _ _ hBv hbd).2
  · rw [if_neg hbd] at h
    simp at h

/-! ### Operation sequences -/

/-- The character-level mutating operations of `GapString` (spec §4.3). -/
inductive StrOp where
  | push (c : Char)
  | pushBack (c : Char)
  | pushStr (str : List Char)
  | pushStrBack (str : List Char)
  | pop
  | popBack
  | setGap (i : Nat)
  | truncateFront (n : Nat)
  | truncateBack (n : Nat)

/-- One `GapString` operation; a panicking call aborts before mutating, so
it leaves the state unchanged. -/
def GapString.step (s : GapString) : StrOp → GapString
  | .push c => (s.push c).getD s
  | .pushBack c => (s.push_back c).getD s
  | .pushStr str => (s.push_str str).getD s
  | .pushStrBack str => (s.push_str_back str).getD s
  | .pop => s.pop.2
  | .popBack => s.pop_back.2
  | .setGap i => (s.set_gap i).toOption.getD s
  | .truncateFront n => (s.truncate_front n).getD s
  | .truncateBack n => (s.truncate_back n).getD s

/-- Run a sequence of `GapString` operations. -/
def GapString.run (s : GapString) (ops : List StrOp) : GapString :=
  ops.foldl GapString.step s

theorem GapString.step_preserves (s : GapString) (op : StrOp)
    (hinv : s.StrInv) : (s.step op).StrInv := by
  cases op with
  | push c =>
    show ((s.push c).getD s).StrInv
    cases h : s.push c with
    | none => exact hinv
    | some s1 => exact (GapString.push_preserves s c s1 hinv h).2.2
  | pushBack c =>
    show ((s.push_back c).getD s).StrInv
    cases h : s.push_back c with
    | none => exact hinv
    | some s1 => exact (GapString.push_back_preserves s c s1 hinv h).2.2
  | pushStr str =>
    show ((s.push_str str).getD s).StrInv
    cases h : s.push_str str with
    | none => exact hinv
    | some s1 => exact (GapString.push_str_preserves s str s1 hinv h).2.2
  | pushStrBack str =>
    show ((s.push_str_back str).getD s).StrInv
    cases h : s.push_str_back str with
    | none => exact hinv
    | some s1 => exact (GapString.push_str_back_preserves s str s1 hinv h).2.2
  | pop => exact (GapString.pop_preserves s hinv).1
  | popBack => exact (GapString.pop_back_preserves s hinv).1
  | setGap i =>
    show ((s.set_gap i).toOption.getD s).StrInv
    cases h : s.set_gap i with
    | error e => exact hinv
    | ok s1 =>
      show s1.StrInv
      exact (GapString.set_gap_preserves s i s1 hinv h).1
  | truncateFront n =>
    show ((s.truncate_front n).getD s).StrInv
    cases h : s.truncate_front n with
    | none => exact hinv
    | some s1 => exact GapString.truncate_front_preserves s n s1 hinv h
  | truncateBack n =>
    show ((s.truncate_back n).getD s).StrInv
    cases h : s.truncate_back n with
    | none => exact hinv
    | some s1 => exact GapString.truncate_back_preserves s n s1 hinv h

theorem GapString.run_preserves (s : GapString) (ops : List StrOp)
    (hinv : s.StrInv) : (s.run ops).StrInv := by
  induction ops generalizing s with
  | nil => exact hinv
  | cons op rest ih =>
    show ((s.step op).run rest).StrInv
    exact ih _ (GapString.step_preserves s op hinv)

theorem GapString.new_inv : GapString.new.StrInv := by
  refine ⟨⟨le_refl 0, by show 0 ≤ ISIZE_MAX; omega⟩, ?_, ?_⟩
  · exact ⟨[], rfl⟩
  · exact ⟨[], rfl⟩

/-- A sequence of `push` / `push_back` calls (spec §8, first property). -/
inductive PushOp where
  | front (b : Nat)
  | back (b : Nat)

/-- Run a push sequence; `none` if any call panics (capacity overflow). -/
def GapBuffer.runPush (s : GapBuffer) : List PushOp → Option GapBuffer
  | [] => some s
  | .front b :: rest => (s.push b).bind fun s1 => s1.runPush rest
  | .back b :: rest => (s.push_back b).bind fun s1 => s1.runPush rest

/-- The arguments of the `push` calls, in call order. -/
def pushedFront : List PushOp → List Nat
  | [] => []
  | .front b :: rest => b :: pushedFront rest
  | .back _ :: rest => pushedFront rest

/-- The arguments of the `push_back` calls, in call order. -/
def pushedBack : List PushOp → List Nat
  | [] => []
  | .front _ :: rest => pushedBack rest
  | .back b :: rest => b :: pushedBack rest

theorem GapBuffer.runPush_spec (s : GapBuffer) (ops : List PushOp)
    (s1 : GapBuffer) (hwf : s.wf) (h : s.runPush ops = some s1) :
    s1.front = s.front ++ pushedFront ops ∧
    s1.back = (pushedBack ops).reverse ++ s.back ∧ s1.wf := by
  induction ops generalizing s with
  | nil =>
    unfold runPush at h
    simp only [Option.some.injEq] at h
    subst h
    simp [pushedFront, pushedBack, hwf]
  | cons op rest ih =>
    cases op with
    | front b =>
      unfold runPush at h
      cases hp : s.push b with
      | none =>
        rw [hp] at h
        simp at h
      | some s2 =>
        rw [hp] at h
        simp only [Option.some_bind] at h
        obtain ⟨hf2, hb2, hwf2, -, -⟩ := GapBuffer.push_spec s b s2 hwf hp
        obtain ⟨hf1, hb1, hwf1⟩ := ih s2 hwf2 h
        refine ⟨?_, ?_, hwf1⟩
        · rw [hf1, hf2, List.append_assoc]
          rfl
        · rw [hb1, hb2]
          rfl
    | back b =>
      unfold runPush at h
      cases hp : s.push_back b with
      | none =>
        rw [hp] at h
        simp at h
      | some s2 =>
        rw [hp] at h
        simp only [Option.some_bind] at h
        obtain ⟨hf2, hb2, hwf2, -, -⟩ := GapBuffer.push_back_spec s b s2 hwf hp
        obtain ⟨hf1, hb1, hwf1⟩ := ih s2 hwf2 h
        refine ⟨?_, ?_, hwf1⟩
        · rw [hf1, hf2]
          rfl
        · rw [hb1, hb2]
          show (pushedBack rest).reverse ++ (b :: s.back)
              = (b :: pushedBack rest).reverse ++ s.back
          rw [List.reverse_cons, List.append_assoc]
          rfl

/-- The public mutating operations of `GapBuffer` (spec §4.2). -/
inductive GBOp where
  | push (b : Nat)
  | pushBack (b : Nat)
  | pushSlice (bs : List Nat)
  | pushSliceBack (bs : List Nat)
  | pop
  | popBack
  | popSlice (dst : List Nat)
  | popSliceBack (dst : List Nat)
  | setGap (i : Nat)
  | reserve (n : Nat)
  | truncateFront (n : Nat)
  | truncateBack (n : Nat)
  | clear
  | shrinkToFit
  | shrinkTo (c : Nat)

/-- One `GapBuffer` operation; a panicking call aborts before mutating, so
it leaves the state unchanged. -/
def GapBuffer.step (s : GapBuffer) : GBOp → GapBuffer
  | .push b => (s.push b).getD s
  | .pushBack b => (s.push_back b).getD s
  | .pushSlice bs => (s.push_slice bs).getD s
  | .pushSliceBack bs => (s.push_slice_back bs).getD s
  | .pop => s.pop.2
  | .popBack => s.pop_back.2
  | .popSlice dst => (s.pop_slice dst).2.2
  | .popSliceBack dst => (s.pop_slice_back dst).2.2
  | .setGap i => (s.set_gap i).getD s
  | .reserve n => (s.reserve n).getD s
  | .truncateFront n => s.truncate_front n
  | .truncateBack n => s.truncate_back n
  | .clear => s.clear
  | .shrinkToFit => s.shrink_to_fit.getD s
  | .shrinkTo c => (s.shrink_to c).getD s

/-- Run a sequence of `GapBuffer` operations. -/
def GapBuffer.runOps (s : GapBuffer) (ops : List GBOp) : GapBuffer :=
  ops.foldl GapBuffer.step s

theorem GapBuffer.shrink_to_wf (s : GapBuffer) (c : Nat) (s1 : GapBuffer)
    (h : s.shrink_to c = some s1) : s1.wf := by
  unfold GapBuffer.shrink_to at h
  by_cases hle : s.len ≤ c
  · rw [if_pos hle] at h
    unfold GapBuffer.set_capacity at h
    by_cases hiz : c ≤ ISIZE_MAX
    · rw [if_pos hiz] at h
      simp only [Option.some.injEq] at h
      subst h
      exact ⟨hle, hiz⟩
    · rw [if_neg hiz] at h
      simp at h
  · rw [if_neg hle] at h
    simp at h

theorem GapBuffer.step_wf (s : GapBuffer) (op : GBOp) (hwf : s.wf) :
    (s.step op).wf := by
  obtain ⟨h1, h2⟩ := hwf
  cases op with
  | push b =>
    show ((s.push b).getD s).wf
    cases h : s.push b with
    | none => exact ⟨h1, h2⟩
    | some s1 => exact (GapBuffer.push_spec s b s1 ⟨h1, h2⟩ h).2.2.1
  | pushBack b =>
    show ((s.push_back b).getD s).wf
    cases h : s.push_back b with
    | none => exact ⟨h1, h2⟩
    | some s1 => exact (GapBuffer.push_back_spec s b s1 ⟨h1, h2⟩ h).2.2.1
  | pushSlice bs =>
    show ((s.push_slice bs).getD s).wf
    cases h : s.push_slice bs with
    | none => exact ⟨h1, h2⟩
    | some s1 => exact (GapBuffer.push_slice_spec s bs s1 ⟨h1, h2⟩ h).2.2.1
  | pushSliceBack bs =>
    show ((s.push_slice_back bs).getD s).wf
    cases h : s.push_slice_back bs with
    | none => exact ⟨h1, h2⟩
    | some s1 => exact (GapBuffer.push_slice_back_spec s bs s1 ⟨h1, h2⟩ h).2.2.1
  | pop =>
    show (s.pop.2).wf
    unfold GapBuffer.pop
    by_cases hp : s.front_len > 0
    · rw [if_pos hp]
      exact ⟨by show s.front_len - 1 + s.back_len ≤ s.cap; omega, h2⟩
    · rw [if_neg hp]
      exact ⟨h1, h2⟩
  | popBack =>
    show (s.pop_back.2).wf
    unfold GapBuffer.pop_back
    by_cases hp : s.back_len > 0
    · rw [if_pos hp]
      exact ⟨by show s.front_len + (s.back_len - 1) ≤ s.cap; omega, h2⟩
    · rw [if_neg hp]
      exact ⟨h1, h2⟩
  | popSlice dst =>
    exact ⟨by show s.front_len - min dst.length s.front_len + s.back_len ≤ s.cap
              omega, h2⟩
  | popSliceBack dst =>
    exact ⟨by show s.front_len + (s.back_len - min dst.length s.back_len) ≤ s.cap
              omega, h2⟩
  | setGap i =>
    show ((s.set_gap i).getD s).wf
    cases h : s.set_gap i with
    | none => exact ⟨h1, h2⟩
    | some s1 => exact (GapBuffer.set_gap_spec s i s1 ⟨h1, h2⟩ h).2.2.2.1
  | reserve n =>
    show ((s.reserve n).getD s).wf
    cases h : s.reserve n with
    | none => exact ⟨h1, h2⟩
    | some s1 => exact (GapBuffer.reserve_spec s n s1 ⟨h1, h2⟩ h).2.2.2.2.1
  | truncateFront n => exact GapBuffer.truncate_front_wf s n ⟨h1, h2⟩
  | truncateBack n => exact GapBuffer.truncate_back_wf s n ⟨h1, h2⟩
  | clear => exact ⟨by show 0 + 0 ≤ s.cap; omega, h2⟩
  | shrinkToFit =>
    show (s.shrink_to_fit.getD s).wf
    cases h : s.shrink_to_fit with
    | none => exact ⟨h1, h2⟩
    | some s1 => exact GapBuffer.shrink_to_wf s s.len s1 h
  | shrinkTo c =>
    show ((s.shrink_to c).getD s).wf
    cases h : s.shrink_to c with
    | none => exact ⟨h1, h2⟩
    | some s1 => exact GapBuffer.shrink_to_wf s c s1 h

theorem GapBuffer.runOps_wf (s : GapBuffer) (ops : List GBOp) (hwf : s.wf) :
    (s.runOps ops).wf := by
  induction ops generalizing s with
  | nil => exact hwf
  | cons op rest ih =>
    show ((s.step op).runOps rest).wf
    exact ih _ (GapBuffer.step_wf s op hwf)

/-! ### Claim theorems -/

theorem GapBuffer.new_wf : GapBuffer.new.wf :=
  ⟨le_refl 0, by show 0 ≤ ISIZE_MAX; omega⟩

/-- C1: for every well-formed gap buffer and every `i ≤ len`, `set_gap i`
succeeds, preserves the concatenation `front ++ back`, leaves
`front_len = i` and `back_len = len - i`, and when `i < front_len` moves
exactly the `front_len - i` tail elements of the front region to the head
of the back region (symmetrically when `i > front_len`). -/
theorem claim_c1_set_gap (s : GapBuffer) (i : Nat)
    (hwf : s.wf) (hle : i ≤ s.len) :
    ∃ s1, s.set_gap i = some s1 ∧
      s1.front ++ s1.back = s.front ++ s.back ∧
      s1.front_len = i ∧ s1.back_len = s.len - i ∧
      (i < s.front_len →
        s1.front = s.front.take i ∧ s1.back = s.front.drop i ++ s.back ∧
        (s.front.drop i).length = s.front_len - i) ∧
      (s.front_len < i →
        s1.front = s.front ++ s.back.take (i - s.front_len) ∧
        s1.back = s.back.drop (i - s.front_len) ∧
        (s.back.take (i - s.front_len)).length = i - s.front_len) := by
  obtain ⟨s1, h⟩ : ∃ s1, s.set_gap i = some s1 := by
    unfold GapBuffer.set_gap
    rw [if_pos hle]
    exact ⟨_, rfl⟩
  obtain ⟨hcap, hfl, hbl, hwf1, hbelow, habove⟩ :=
    GapBuffer.set_gap_spec s i s1 hwf h
  have hflen : s.front.length = s.front_len := readRange_length _ _ _
  have hblen : s.back.length = s.back_len := readRange_length _ _ _
  have hlen : s.len = s.front_len + s.back_len := rfl
  refine ⟨s1, h, ?_, hfl, hbl, ?_, ?_⟩
  · by_cases hcase : i ≤ s.front_len
    · obtain ⟨hf, hb⟩ := hbelow hcase
      rw [hf, hb, ← List.append_assoc, List.take_append_drop]
    · obtain ⟨hf, hb⟩ := habove (by omega)
      rw [hf, hb, List.append_assoc, List.take_append_drop]
  · intro hlt
    obtain ⟨hf, hb⟩ := hbelow (le_of_lt hlt)
    refine ⟨hf, hb, ?_⟩
    rw [List.length_drop]
    omega
  · intro hgt
    obtain ⟨hf, hb⟩ := habove hgt
    refine ⟨hf, hb, ?_⟩
    rw [List.length_take]
    omega

/-- Concrete well-formed buffer used by the C1 witness: capacity 4,
front `[10,11,12]`, back `[13]`. -/
def c1demo : GapBuffer :=
  { cap := 4, mem := fun j => j + 10, front_len := 3, back_len := 1 }

theorem claim_c1_set_gap_witness :
    c1demo.wf ∧ 1 ≤ c1demo.len ∧
    ∃ s1, c1demo.set_gap 1 = some s1 ∧
      s1.front ++ s1.back = c1demo.front ++ c1demo.back ∧
      s1.front_len = 1 ∧ s1.back_len = c1demo.len - 1 ∧
      (1 < c1demo.front_len →
        s1.front = c1demo.front.take 1 ∧
        s1.back = c1demo.front.drop 1 ++ c1demo.back ∧
        (c1demo.front.drop 1).length = c1demo.front_len - 1) ∧
      (c1demo.front_len < 1 →
        s1.front = c1demo.front ++ c1demo.back.take (1 - c1demo.front_len) ∧
        s1.back = c1demo.back.drop (1 - c1demo.front_len) ∧
        (c1demo.back.take (1 - c1demo.front_len)).length
          = 1 - c1demo.front_len) :=
  ⟨by decide, by decide, claim_c1_set_gap c1demo 1 (by decide) (by decide)⟩

/-- C2: evaluation of the claim at the failing input for the older
`GapVec`.  After `with_capacity 8`, `push_slice [10,20,30]`, `set_gap 0`
and `pop_back`, the logical content `front() ++ back()` is `[20, 30]`, so
the claim requires `get 0 = some 20`; the source `index_to_ptr` tests
`index > front_len` instead of `index >= front_len`, so at
`index = front_len = 0` it reads offset `0` — a stale gap byte — and
returns `10`.  (In `crates/ash_gap_buffer2`, `index_to_ptr` handles the
boundary correctly; see `GapBuffer.get_spec`.) -/
theorem claim_c2_gapvec_get_boundary_bug :
    gapVecDemo.front_len = 0 ∧ gapVecDemo.back_len = 2 ∧
    gapVecDemo.front ++ gapVecDemo.back = [20, 30] ∧
    (gapVecDemo.front ++ gapVecDemo.back)[0]? = some 20 ∧
    gapVecDemo.get 0 = some 10 := by
  refine ⟨by decide, by decide, by decide, by decide, by decide⟩

/-- C3: starting from the empty string or any string satisfying the UTF-8
invariant, after any sequence of `push`, `push_back`, `push_str`,
`push_str_back`, `pop`, `pop_back`, `set_gap`, `truncate_front`,
`truncate_back`, the front and back regions are each independently valid
UTF-8 (a panicking call aborts before mutating, so no state with the
invariant broken is ever observable). -/
theorem claim_c3_utf8_invariant (s : GapString) (ops : List StrOp)
    (hinv : s.StrInv) :
    Valid8 (s.run ops).front ∧ Valid8 (s.run ops).back :=
  ⟨(GapString.run_preserves s ops hinv).2.1,
   (GapString.run_preserves s ops hinv).2.2⟩

theorem claim_c3_utf8_invariant_witness :
    Valid8 (GapString.new.run
      [StrOp.push '£', StrOp.pushBack 'b', StrOp.pushStr ['a', 'c'],
       StrOp.setGap 2, StrOp.pop, StrOp.popBack]).front ∧
    Valid8 (GapString.new.run
      [StrOp.push '£', StrOp.pushBack 'b', StrOp.pushStr ['a', 'c'],
       StrOp.setGap 2, StrOp.pop, StrOp.popBack]).back :=
  claim_c3_utf8_invariant GapString.new _ GapString.new_inv

/-- C4: a sequence of `push` / `push_back` calls from the empty buffer that
completes without panicking leaves `front()` equal to the `push` arguments
in call order and `back()` equal to the `push_back` arguments in reverse
call order. -/
theorem claim_c4_push_order (ops : List PushOp) (s1 : GapBuffer)
    (h : GapBuffer.new.runPush ops = some s1) :
    s1.front = pushedFront ops ∧ s1.back = (pushedBack ops).reverse := by
  obtain ⟨hf, hb, -⟩ := GapBuffer.runPush_spec _ ops s1 GapBuffer.new_wf h
  have hnf : GapBuffer.new.front = [] := rfl
  have hnb : GapBuffer.new.back = [] := rfl
  rw [hnf] at hf
  rw [hnb] at hb
  rw [hf, hb, List.nil_append, List.append_nil]
  exact ⟨rfl, rfl⟩

/-- The push sequence used by the C4 witness and the state it produces. -/
def c4ops : List PushOp :=
  [PushOp.front 1, PushOp.back 2, PushOp.front 3, PushOp.back 4]

def c4result : GapBuffer := (GapBuffer.new.runPush c4ops).getD GapBuffer.new

theorem claim_c4_push_order_witness :
    GapBuffer.new.runPush c4ops = some c4result ∧
    c4result.front = pushedFront c4ops ∧
    c4result.back = (pushedBack c4ops).reverse :=
  ⟨rfl, claim_c4_push_order c4ops c4result rfl⟩

/-- C5: `GapString::set_gap` at an in-bounds index that is not a character
boundary fails fast with the boundary panic, which is distinct from the
out-of-bounds panic; the check precedes the delegated move, so no mutation
happens (an `error` result carries no new state). -/
theorem claim_c5_set_gap_boundary (s : GapString) (i : Nat)
    (hle : i ≤ s.len) (hbd : s.is_char_boundary i = false) :
    s.set_gap i = .error .notCharBoundary ∧
    GapStrPanic.notCharBoundary ≠ GapStrPanic.outOfBounds := by
  refine ⟨?_, by decide⟩
  unfold GapString.set_gap
  rw [if_pos hle, if_neg (by simp [hbd])]

/-- The spec §8 scenario string and the state built from it. -/
def demoChars : List Char := "that will be £5 please".data

def demoGS : GapString := (GapString.fromStr demoChars).getD GapString.new

theorem claim_c5_set_gap_boundary_witness :
    (14 ≤ demoGS.len ∧ demoGS.is_char_boundary 14 = false ∧
      demoGS.set_gap 14 = .error .notCharBoundary) ∧
    demoGS.set_gap 15
      = .ok ((demoGS.set_gap 15).toOption.getD GapString.new) :=
  ⟨⟨by decide, by decide,
    (claim_c5_set_gap_boundary demoGS 14 (by decide) (by decide)).1⟩,
   rfl⟩

/-- C6: after a successful `reserve(additional)` on a well-formed buffer
the gap holds at least `additional` elements and both regions are
unchanged (the back region sits at the end of the new allocation, moved
within the same call); when the capacity changed, the new capacity is
exactly `max (len + additional) (cap + max (cap/16) 64)`, i.e. growth is
bounded below by the `max (cap/16) 64` floor. -/
theorem claim_c6_reserve (s : GapBuffer) (additional : Nat) (s1 : GapBuffer)
    (hwf : s.wf) (h : s.reserve additional = some s1) :
    additional ≤ s1.cap - s1.len ∧
    s1.front = s.front ∧ s1.back = s.back ∧
    (s1.cap ≠ s.cap →
      s1.cap = max (s.len + additional) (s.cap + max (s.cap / 16) 64) ∧
      s.cap + max (s.cap / 16) 64 ≤ s1.cap) := by
  obtain ⟨hfl, hbl, hfr, hbk, hwf1, hreq, hmono, hgrow⟩ :=
    GapBuffer.reserve_spec s additional s1 hwf h
  refine ⟨?_, hfr, hbk, fun hne => ⟨hgrow hne, ?_⟩⟩
  · have h1 : s1.len = s.len := by
      show s1.front_len + s1.back_len = s.front_len + s.back_len
      omega
    omega
  · rw [hgrow hne]
    exact le_max_right _ _

def c6result : GapBuffer := (GapBuffer.new.reserve 1).getD GapBuffer.new

theorem claim_c6_reserve_witness :
    GapBuffer.new.wf ∧ GapBuffer.new.reserve 1 = some c6result ∧
    (1 ≤ c6result.cap - c6result.len ∧
     c6result.front = GapBuffer.new.front ∧
     c6result.back = GapBuffer.new.back ∧
     (c6result.cap ≠ GapBuffer.new.cap →
       c6result.cap = max (GapBuffer.new.len + 1)
         (GapBuffer.new.cap + max (GapBuffer.new.cap / 16) 64) ∧
       GapBuffer.new.cap + max (GapBuffer.new.cap / 16) 64 ≤ c6result.cap)) :=
  ⟨GapBuffer.new_wf, rfl,
   claim_c6_reserve GapBuffer.new 1 c6result GapBuffer.new_wf rfl⟩

/-- C7: in every state reachable by running public operations from a
well-formed initial buffer, `front_len + back_len ≤ capacity` and the
capacity never exceeds the offset-safety bound `isize::MAX`. -/
theorem claim_c7_invariant (init : GapBuffer) (ops : List GBOp)
    (hwf : init.wf) :
    (init.runOps ops).front_len + (init.runOps ops).back_len
      ≤ (init.runOps ops).cap ∧
    (init.runOps ops).cap ≤ ISIZE_MAX :=
  GapBuffer.runOps_wf init ops hwf

theorem claim_c7_invariant_witness :
    (GapBuffer.new.runOps
        [GBOp.push 1, GBOp.pushBack 2, GBOp.setGap 0, GBOp.shrinkToFit]).front_len
      + (GapBuffer.new.runOps
        [GBOp.push 1, GBOp.pushBack 2, GBOp.setGap 0, GBOp.shrinkToFit]).back_len
      ≤ (GapBuffer.new.runOps
        [GBOp.push 1, GBOp.pushBack 2, GBOp.setGap 0, GBOp.shrinkToFit]).cap ∧
    (GapBuffer.new.runOps
        [GBOp.push 1, GBOp.pushBack 2, GBOp.setGap 0, GBOp.shrinkToFit]).cap
      ≤ ISIZE_MAX :=
  claim_c7_invariant GapBuffer.new _ GapBuffer.new_wf

/-- C8: constructing a gap buffer from a byte vector adopts the vector as
the entire front region (back empty), and exporting it as one flat owned
buffer (`into_vec`) returns exactly the original vector.  The hypotheses
are the invariants `Vec` itself guarantees: `len ≤ capacity ≤ isize::MAX`. -/
theorem claim_c8_roundtrip (v : List Nat) (vcap : Nat)
    (hlen : v.length ≤ vcap) (hcap : vcap ≤ ISIZE_MAX) :
    (GapBuffer.from_vec v vcap).front = v ∧
    (GapBuffer.from_vec v vcap).back = [] ∧
    (GapBuffer.from_vec v vcap).into_vec = some v :=
  ⟨(GapBuffer.from_vec_front v vcap).1,
   (GapBuffer.from_vec_front v vcap).2,
   GapBuffer.from_vec_into_vec v vcap hlen hcap⟩

theorem claim_c8_roundtrip_witness :
    (GapBuffer.from_vec [7, 8, 9] 5).front = [7, 8, 9] ∧
    (GapBuffer.from_vec [7, 8, 9] 5).back = [] ∧
    (GapBuffer.from_vec [7, 8, 9] 5).into_vec = some [7, 8, 9] :=
  claim_c8_roundtrip [7, 8, 9] 5 (by decide) (by decide)

/-- C9: `pop_slice` transfers exactly `n = min (requested, front_len)`
elements — the tail of the front region, in logical order, into the first
`n` slots of the caller slice — and `pop_slice_back` symmetrically drains
the first `n = min (requested, back_len)` elements of the back region;
both always succeed, and the untouched parts of the buffer are unchanged. -/
theorem claim_c9_pop_slice (s : GapBuffer) (dst : List Nat) (hwf : s.wf) :
    (s.pop_slice dst).1 = min dst.length s.front_len ∧
    (s.pop_slice dst).2.1
      = s.front.drop (s.front_len - min dst.length s.front_len)
        ++ dst.drop (min dst.length s.front_len) ∧
    (s.pop_slice dst).2.2.front
      = s.front.take (s.front_len - min dst.length s.front_len) ∧
    (s.pop_slice dst).2.2.back = s.back ∧
    (s.pop_slice_back dst).1 = min dst.length s.back_len ∧
    (s.pop_slice_back dst).2.1
      = s.back.take (min dst.length s.back_len)
        ++ dst.drop (min dst.length s.back_len) ∧
    (s.pop_slice_back dst).2.2.front = s.front ∧
    (s.pop_slice_back dst).2.2.back
      = s.back.drop (min dst.length s.back_len) := by
  obtain ⟨hlen, -⟩ := hwf
  refine ⟨rfl, ?_, ?_, rfl, rfl, ?_, rfl, ?_⟩
  · show readRange s.mem (s.front_len - min dst.length s.front_len)
        (min dst.length s.front_len) ++ dst.drop (min dst.length s.front_len)
        = _
    rw [GapBuffer.front, readRange_drop]
    congr 2 <;> omega
  · show readRange s.mem 0 (s.front_len - min dst.length s.front_len) = _
    rw [GapBuffer.front, readRange_take]
    congr 1
    omega
  · show readRange s.mem (s.cap - s.back_len) (min dst.length s.back_len)
        ++ dst.drop (min dst.length s.back_len) = _
    rw [GapBuffer.back, readRange_take]
    congr 2
    omega
  · show readRange s.mem
        (s.cap - (s.back_len - min dst.length s.back_len))
        (s.back_len - min dst.length s.back_len) = _
    rw [GapBuffer.back, readRange_drop]
    congr 1
    omega

def c9demo : GapBuffer :=
  { cap := 8, mem := fun j => j + 1, front_len := 3, back_len := 2 }

theorem claim_c9_pop_slice_witness :
    (c9demo.pop_slice [0, 0]).1 = min 2 c9demo.front_len ∧
    (c9demo.pop_slice [0, 0]).2.1
      = c9demo.front.drop (c9demo.front_len - min 2 c9demo.front_len)
        ++ List.drop (min 2 c9demo.front_len) [0, 0] ∧
    (c9demo.pop_slice [0, 0]).2.2.front
      = c9demo.front.take (c9demo.front_len - min 2 c9demo.front_len) ∧
    (c9demo.pop_slice [0, 0]).2.2.back = c9demo.back ∧
    (c9demo.pop_slice_back [0, 0]).1 = min 2 c9demo.back_len ∧
    (c9demo.pop_slice_back [0, 0]).2.1
      = c9demo.back.take (min 2 c9demo.back_len)
        ++ List.drop (min 2 c9demo.back_len) [0, 0] ∧
    (c9demo.pop_slice_back [0, 0]).2.2.front = c9demo.front ∧
    (c9demo.pop_slice_back [0, 0]).2.2.back
      = c9demo.back.drop (min 2 c9demo.back_len) :=
  claim_c9_pop_slice c9demo [0, 0] (by decide)

/-- C10: `pop` returns `None` exactly when the front region is empty and
`pop_back` exactly when the back region is empty, each leaving the state
unchanged in that case — even on a non-empty buffer (empty front region,
non-empty back region gives `pop = None` while `is_empty = false`); the
same holds at the character level for `GapString`. -/
theorem claim_c10_pop_emptiness (s : GapBuffer) (t : GapString) :
    ((s.pop.1 = none) ↔ s.front_len = 0) ∧
    (s.front_len = 0 → s.pop.2 = s) ∧
    ((s.pop_back.1 = none) ↔ s.back_len = 0) ∧
    (s.back_len = 0 → s.pop_back.2 = s) ∧
    (s.front_len = 0 → s.back_len ≠ 0 →
      s.pop.1 = none ∧ s.is_empty = false) ∧
    ((t.pop.1 = none) ↔ t.inner.front_len = 0) ∧
    (t.inner.front_len = 0 → t.pop.2 = t) ∧
    ((t.pop_back.1 = none) ↔ t.inner.back_len = 0) ∧
    (t.inner.back_len = 0 → t.pop_back.2 = t) := by
  refine ⟨?_, ?_, ?_, ?_, ?_, ?_, ?_, ?_, ?_⟩
  · unfold GapBuffer.pop
    by_cases hp : s.front_len > 0
    · rw [if_pos hp]
      simp
      omega
    · rw [if_neg hp]
      simp
      omega
  · intro h0
    unfold GapBuffer.pop
    rw [if_neg (by omega)]
  · unfold GapBuffer.pop_back
    by_cases hp : s.back_len > 0
    · rw [if_pos hp]
      simp
      omega
    · rw [if_neg hp]
      simp
      omega
  · intro h0
    unfold GapBuffer.pop_back
    rw [if_neg (by omega)]
  · intro h0 hb
    constructor
    · unfold GapBuffer.pop
      rw [if_neg (by omega)]
    · simp only [GapBuffer.is_empty, GapBuffer.len]
      simp
      omega
  · unfold GapString.pop
    by_cases hp : t.inner.front_len = 0
    · rw [if_pos hp]
      simp [hp]
    · rw [if_neg hp]
      simp [hp]
  · intro h0
    unfold GapString.pop
    rw [if_pos h0]
  · unfold GapString.pop_back
    by_cases hp : t.inner.back_len = 0
    · rw [if_pos hp]
      simp [hp]
    · rw [if_neg hp]
      simp [hp]
  · intro h0
    unfold GapString.pop_back
    rw [if_pos h0]

def c10demo : GapBuffer :=
  { cap := 2, mem := fun j => j + 5, front_len := 0, back_len := 1 }

theorem claim_c10_pop_emptiness_witness :
    (c10demo.pop.1 = none ∧ c10demo.is_empty = false) ∧
    c10demo.pop.2 = c10demo ∧
    GapString.new.pop.2 = GapString.new := by
  obtain ⟨h1, h2, h3, h4, h5, h6, h7, h8, h9⟩ :=
    claim_c10_pop_emptiness c10demo GapString.new
  exact ⟨h5 (by decide) (by decide), h2 (by decide), h7 (by decide)⟩
